import Mathlib

/-
Verification of the transactional file-mutation engine
(_ark_system/_tools/apply_modifications.py and ark_checksum.py).

Shallow embedding conventions:
* byte strings and decoded text are `List Nat` (byte values 0..255,
  resp. Unicode code points);
* SHA-256 itself is kept abstract: every engine definition takes a
  digest oracle `sha : Bytes → Bytes` returning the 64-character
  lowercase-hex digest as a byte list.  All canonicalization around the
  hash is modelled concretely;
* regular-expression substitution in REPLACE_IN_FILE's regex mode is
  likewise an oracle parameter `rsub`;
* the file tree is a pair of finite association lists (files and
  directories); paths are code-point lists, keyed by their normalized
  root-relative form;
* charset detection (charset_normalizer.detect) is modelled as:
  valid UTF-8 input decodes as UTF-8, anything else falls back to the
  latin-1 byte-to-code-point identity, mirroring decode_file_content's
  fallback path;
* OS-level failure modes with no counterpart in the model (permission
  errors, transient I/O errors, same-second backup-name collisions,
  symlinks) are not modelled; reads and writes succeed deterministically.
-/

set_option maxRecDepth 20000

namespace Ark

abbrev Bytes := List Nat

/-- Code points of an ASCII string literal. -/
def strCps (s : String) : List Nat := s.toList.map Char.toNat

/-- UTF-8 byte-order mark. -/
def BOM_BYTES : Bytes := [239, 187, 191]

/-- ASCII lower-casing of one byte, as done by re.IGNORECASE on bytes. -/
def lowerByte (b : Nat) : Nat := if 65 ≤ b ∧ b ≤ 90 then b + 32 else b

/-- Bytes matched by the regex class backslash-s on byte strings. -/
def isWS (b : Nat) : Bool := b = 32 || b = 9 || b = 10 || b = 13 || b = 12 || b = 11

/-- Characters of the class [a-f0-9] under IGNORECASE. -/
def isHexCI (b : Nat) : Bool := (48 ≤ b && b ≤ 57) || (97 ≤ b && b ≤ 102) || (65 ≤ b && b ≤ 70)

/-- Characters of the case-sensitive class [0-9a-f]. -/
def isHexLower (b : Nat) : Bool := (48 ≤ b && b ≤ 57) || (97 ≤ b && b ≤ 102)

/-- Match a literal case-insensitively at the head, returning the rest. -/
def matchLitCI : List Nat → List Nat → Option (List Nat)
  | [], bs => some bs
  | _ :: _, [] => none
  | l :: ls, b :: bs => if lowerByte b = lowerByte l then matchLitCI ls bs else none

/-- Greedily drop leading regex whitespace. -/
def dropWS : List Nat → List Nat
  | [] => []
  | b :: bs => if isWS b then dropWS bs else b :: bs

/-- Match exactly n case-insensitive hex characters, returning the rest. -/
def matchHexCI : Nat → List Nat → Option (List Nat)
  | 0, bs => some bs
  | _ + 1, [] => none
  | n + 1, b :: bs => if isHexCI b then matchHexCI n bs else none

def arkTagOpen : List Nat := strCps "<!--"
def arkTagName : List Nat := strCps "[ARK_INTEGRITY_CHECKSUM::sha256:"
def arkTagClose : List Nat := strCps "-->"
def arkTagRBracket : List Nat := strCps "]"

/--
Matcher for the core of ark_checksum's CHECKSUM_TAG_PATTERN_BYTES
(everything after the leading newline group), anchored at end of input.
-/
def matchArkCore (bs : List Nat) : Bool :=
  match matchLitCI arkTagOpen bs with
  | none => false
  | some r1 =>
    match matchLitCI arkTagName (dropWS r1) with
    | none => false
    | some r2 =>
      match matchHexCI 64 r2 with
      | none => false
      | some r3 =>
        match matchLitCI arkTagRBracket r3 with
        | none => false
        | some r4 =>
          match matchLitCI arkTagClose (dropWS r4) with
          | none => false
          | some r5 => (dropWS r5).isEmpty

/--
Full match of CHECKSUM_TAG_PATTERN_BYTES at the head of the input:
a run of newline groups, then the tag core, anchored at end of input.
-/
def matchArkFull (bs : List Nat) : Bool :=
  if matchArkCore bs then true
  else
    match bs with
    | 10 :: r => matchArkFull r
    | 13 :: 10 :: r => matchArkFull r
    | _ => false

/--
Removal of the (unique, end-anchored) trailing-tag match, at the
leftmost position where the pattern matches -- re.sub semantics.
-/
def stripTrailingTag (bs : List Nat) : List Nat :=
  if matchArkFull bs then []
  else
    match bs with
    | [] => []
    | b :: r => b :: stripTrailingTag r

/-- Strip a leading UTF-8 BOM (bytes.startswith check). -/
def stripBom (bs : Bytes) : Bytes := if bs.take 3 = BOM_BYTES then bs.drop 3 else bs

/-- Left-to-right non-overlapping replacement of CRLF by LF (bytes.replace). -/
def crlfToLf : Bytes → Bytes
  | [] => []
  | [b] => [b]
  | b :: c :: r => if b = 13 ∧ c = 10 then 10 :: crlfToLf r else b :: crlfToLf (c :: r)

/-- Strip trailing LF bytes (bytes.rstrip with a newline argument). -/
def rstripLf : Bytes → Bytes
  | [] => []
  | b :: r =>
    match rstripLf r with
    | [] => if b = 10 then [] else [b]
    | r' => b :: r'

/--
ark_checksum._canonicalize_bytes_for_hash: None becomes empty; else
strip BOM, normalize CRLF to LF, remove the trailing integrity tag,
strip trailing newlines.
-/
def _canonicalize_bytes_for_hash : Option Bytes → Bytes
  | none => []
  | some raw => rstripLf (stripTrailingTag (crlfToLf (stripBom raw)))

/--
ark_checksum.calculate_clean_checksum over a digest oracle sha.
A None argument hashes the empty byte string directly.
-/
def calculate_clean_checksum (sha : Bytes → Bytes) (data : Option Bytes) : Bytes :=
  match data with
  | none => sha []
  | some bs => sha (_canonicalize_bytes_for_hash (some bs))

/-! Spec-side fingerprint, built from the specification's wording:
strip a leading BOM; replace CRLF by LF; remove one trailing integrity
tag matching the fixed case-insensitive pattern if present; trim
trailing newline characters; digest the result.  The BOM and CRLF
steps are shared with the code-side model because the specification
names the identical atomic byte operations.  Tag removal and newline
trimming are implemented differently from the code side: removal
searches for the first offset whose suffix matches the anchored
pattern and truncates there; trimming goes through reverse and
dropWhile. -/

/-- Trim trailing newline bytes, expressed via reverse and dropWhile. -/
def specTrimNl (bs : Bytes) : Bytes := (bs.reverse.dropWhile (fun b => b = 10)).reverse

/-- Remove one trailing integrity tag: truncate at the first offset whose
suffix matches the anchored case-insensitive tag pattern. -/
def specUntag (bs : Bytes) : Bytes :=
  match (List.range (bs.length + 1)).find? (fun i => matchArkFull (bs.drop i)) with
  | some i => bs.take i
  | none => bs

/-- The fingerprint as the specification words it. -/
def fingerprint_spec (sha : Bytes → Bytes) (data : Option Bytes) : Bytes :=
  match data with
  | none => sha []
  | some bs => sha (specTrimNl (specUntag (crlfToLf (stripBom bs))))

/-! UTF-8 codec and Python text helpers used by apply_modifications. -/

/-- Encode one Unicode code point as UTF-8 bytes (total; code points
beyond the scalar range produce a best-effort 4-byte form, which the
engine theorems exclude via digest well-formedness hypotheses). -/
def utf8EncodeChar (c : Nat) : List Nat :=
  if c < 128 then [c]
  else if c < 2048 then [192 + c / 64, 128 + c % 64]
  else if c < 65536 then [224 + c / 4096, 128 + c / 64 % 64, 128 + c % 64]
  else [240 + c / 262144, 128 + c / 4096 % 64, 128 + c / 64 % 64, 128 + c % 64]

def utf8Encode : List Nat → Bytes
  | [] => []
  | c :: cs => utf8EncodeChar c ++ utf8Encode cs

/-- UTF-8 continuation byte. -/
def isCont (b : Nat) : Bool := decide (128 ≤ b ∧ b < 192)

/-- Continuation checks for two-, three- and four-byte sequences
(including the overlong and surrogate guards). -/
def cc3 (b c d : Nat) : Bool :=
  isCont c && isCont d && decide (b = 224 → 160 ≤ c) && decide (b = 237 → c < 160)

def cc4 (b c d e : Nat) : Bool :=
  isCont c && isCont d && isCont e && decide (b = 240 → 144 ≤ c) && decide (b = 244 → c < 144)

/-- Strict UTF-8 decoder (rejects overlong forms and surrogates), the
success branch of decode_file_content's charset detection. -/
def utf8Decode? : Bytes → Option (List Nat)
  | [] => some []
  | b :: r =>
    if b < 128 then (utf8Decode? r).map (fun cs => b :: cs)
    else if 194 ≤ b ∧ b ≤ 223 then
      match r with
      | [] => none
      | c :: r2 =>
        if isCont c then (utf8Decode? r2).map (fun cs => ((b - 192) * 64 + (c - 128)) :: cs)
        else none
    else if 224 ≤ b ∧ b ≤ 239 then
      match r with
      | [] => none
      | c :: r1 =>
        match r1 with
        | [] => none
        | d :: r2 =>
          if cc3 b c d then
            (utf8Decode? r2).map (fun cs => ((b - 224) * 4096 + (c - 128) * 64 + (d - 128)) :: cs)
          else none
    else if 240 ≤ b ∧ b ≤ 244 then
      match r with
      | [] => none
      | c :: r1 =>
        match r1 with
        | [] => none
        | d :: r1b =>
          match r1b with
          | [] => none
          | e :: r2 =>
            if cc4 b c d e then
              (utf8Decode? r2).map (fun cs =>
                ((b - 240) * 262144 + (c - 128) * 4096 + (d - 128) * 64 + (e - 128)) :: cs)
            else none
    else none

/-- decode_file_content: best-effort decode.  Valid UTF-8 decodes as
UTF-8 (the detector's answer for such input); anything else falls back
to the latin-1 byte-to-code-point identity. -/
def decode_file_content (bs : Bytes) : List Nat :=
  match utf8Decode? bs with
  | some cps => cps
  | none => bs

/-- Characters stripped by Python str.strip(). -/
def isPyWS (c : Nat) : Bool :=
  c = 32 || c = 9 || c = 10 || c = 11 || c = 12 || c = 13 ||
  c = 28 || c = 29 || c = 30 || c = 31 || c = 133 || c = 160 ||
  c = 5760 || decide (8192 ≤ c ∧ c ≤ 8202) || c = 8232 || c = 8233 ||
  c = 8239 || c = 8287 || c = 12288

def pyStrip (cs : List Nat) : List Nat :=
  ((cs.dropWhile isPyWS).reverse.dropWhile isPyWS).reverse

/-- Python str.lower(), modelled on the ASCII and Cyrillic ranges the
truncation markers use; other code points are left unchanged. -/
def pyLower (c : Nat) : Nat :=
  if 65 ≤ c ∧ c ≤ 90 then c + 32
  else if 1040 ≤ c ∧ c ≤ 1071 then c + 32
  else if c = 1025 then 1105
  else c

/-- Substring occurrence, the Python in operator on strings. -/
def listHasInfix (pat : List Nat) : List Nat → Bool
  | [] => pat.isEmpty
  | c :: r => pat.isPrefixOf (c :: r) || listHasInfix pat r

/-! The data-loss guard (detect_truncation_or_placeholder). -/

def DEFAULT_MARKERS : List (List Nat) :=
  [strCps "...", strCps "[...", strCps "]...",
   strCps "остается без изменений", strCps "без изменений",
   strCps "no change", strCps "unchanged"]

inductive GuardReason
  | sizeReduction (origLen newLen : Nat)
  | marker (m : List Nat)
deriving DecidableEq

/-- The marker scan: decode the candidate as UTF-8 (a decode failure
skips the scan), lower-case it, and return the first marker that
occurs in it. -/
def markerFound (candidate : Bytes) : Option (List Nat) :=
  match utf8Decode? candidate with
  | none => none
  | some cps => DEFAULT_MARKERS.find? (fun m => listHasInfix (m.map pyLower) (cps.map pyLower))

/-- detect_truncation_or_placeholder.  The Python size test
len_cand < len_orig * 0.5 is exact float arithmetic for realistic
lengths, hence equivalent to 2 * len_cand < len_orig. -/
def detect_truncation_or_placeholder (original : Option Bytes) (candidate : Bytes) :
    Option GuardReason :=
  match original with
  | none => none
  | some ob =>
    if ob = [] then none
    else if 2 * candidate.length < ob.length then
      some (.sizeReduction ob.length candidate.length)
    else
      match markerFound candidate with
      | some m => some (.marker m)
      | none => none

/-! JSON values, serialization and parsing (json.dumps with indent 2
and ensure_ascii False, json.loads).  Numbers are modelled as integers;
floating-point literals in file content are outside the model. -/

inductive JVal
  | jnull
  | jbool (b : Bool)
  | jnum (n : Int)
  | jstr (s : List Nat)
  | jarr (xs : List JVal)
  | jobj (kvs : List (List Nat × JVal))

def natDecimal (n : Nat) : List Nat := (Nat.toDigits 10 n).map Char.toNat

def intDecimal : Int → List Nat
  | Int.ofNat n => natDecimal n
  | Int.negSucc m => 45 :: natDecimal (m + 1)

def hexDigitChar (n : Nat) : Nat := if n < 10 then 48 + n else 87 + n

def jsonEscapeChar (c : Nat) : List Nat :=
  if c = 34 then [92, 34]
  else if c = 92 then [92, 92]
  else if c = 8 then [92, 98]
  else if c = 9 then [92, 116]
  else if c = 10 then [92, 110]
  else if c = 12 then [92, 102]
  else if c = 13 then [92, 114]
  else if c < 32 then [92, 117, 48, 48, hexDigitChar (c / 16), hexDigitChar (c % 16)]
  else [c]

def jsonQuote (s : List Nat) : List Nat := 34 :: (s.map jsonEscapeChar).flatten ++ [34]

def indentSp (d : Nat) : List Nat := List.replicate (2 * d) 32

mutual

def jsonDump : JVal → Nat → List Nat
  | .jnull, _ => strCps "null"
  | .jbool true, _ => strCps "true"
  | .jbool false, _ => strCps "false"
  | .jnum n, _ => intDecimal n
  | .jstr s, _ => jsonQuote s
  | .jarr [], _ => [91, 93]
  | .jarr (x :: xs), d => [91, 10] ++ jsonDumpItems (x :: xs) (d + 1) ++ [10] ++ indentSp d ++ [93]
  | .jobj [], _ => [123, 125]
  | .jobj (kv :: kvs), d =>
      [123, 10] ++ jsonDumpFields (kv :: kvs) (d + 1) ++ [10] ++ indentSp d ++ [125]

def jsonDumpItems : List JVal → Nat → List Nat
  | [], _ => []
  | [x], d => indentSp d ++ jsonDump x d
  | x :: y :: xs, d => indentSp d ++ jsonDump x d ++ [44, 10] ++ jsonDumpItems (y :: xs) d

def jsonDumpFields : List (List Nat × JVal) → Nat → List Nat
  | [], _ => []
  | [(k, v)], d => indentSp d ++ jsonQuote k ++ [58, 32] ++ jsonDump v d
  | (k, v) :: kv :: kvs, d =>
      indentSp d ++ jsonQuote k ++ [58, 32] ++ jsonDump v d ++ [44, 10] ++
        jsonDumpFields (kv :: kvs) d

end

/-- Top-level json.dumps with ensure_ascii False and indent 2, as a byte string. -/
def json_dumps (v : JVal) : Bytes := utf8Encode (jsonDump v 0)

def jsonWSChar (c : Nat) : Bool := c = 32 || c = 9 || c = 10 || c = 13

def skipJsonWS (cs : List Nat) : List Nat := cs.dropWhile jsonWSChar

def isDigitCp (c : Nat) : Bool := decide (48 ≤ c ∧ c ≤ 57)

def digitsToNat (ds : List Nat) : Nat := ds.foldl (fun a c => a * 10 + (c - 48)) 0

def hexCpVal (c : Nat) : Option Nat :=
  if 48 ≤ c ∧ c ≤ 57 then some (c - 48)
  else if 97 ≤ c ∧ c ≤ 102 then some (c - 87)
  else if 65 ≤ c ∧ c ≤ 70 then some (c - 55)
  else none

/-- String body scanner for the JSON parser: content up to the closing
quote, with escape handling. -/
def parseJsonStringBody : Nat → List Nat → Option (List Nat × List Nat)
  | 0, _ => none
  | _ + 1, [] => none
  | _ + 1, 34 :: r => some ([], r)
  | f + 1, 92 :: e :: r =>
    let esc :=
      if e = 34 then some ([34], r)
      else if e = 92 then some ([92], r)
      else if e = 47 then some ([47], r)
      else if e = 98 then some ([8], r)
      else if e = 102 then some ([12], r)
      else if e = 110 then some ([10], r)
      else if e = 114 then some ([13], r)
      else if e = 116 then some ([9], r)
      else if e = 117 then
        match r with
        | h1 :: h2 :: h3 :: h4 :: r2 =>
          match hexCpVal h1, hexCpVal h2, hexCpVal h3, hexCpVal h4 with
          | some v1, some v2, some v3, some v4 =>
              some ([((v1 * 16 + v2) * 16 + v3) * 16 + v4], r2)
          | _, _, _, _ => none
        | _ => none
      else none
    match esc with
    | some (pre, r2) =>
      match parseJsonStringBody f r2 with
      | some (s, rest) => some (pre ++ s, rest)
      | none => none
    | none => none
  | f + 1, c :: r =>
    if c < 32 then none
    else
      match parseJsonStringBody f r with
      | some (s, rest) => some (c :: s, rest)
      | none => none

mutual

def parseJsonVal : Nat → List Nat → Option (JVal × List Nat)
  | 0, _ => none
  | f + 1, cs =>
    match skipJsonWS cs with
    | [] => none
    | c :: r =>
      if c = 110 then
        if (strCps "ull").isPrefixOf r then some (.jnull, r.drop 3) else none
      else if c = 116 then
        if (strCps "rue").isPrefixOf r then some (.jbool true, r.drop 3) else none
      else if c = 102 then
        if (strCps "alse").isPrefixOf r then some (.jbool false, r.drop 4) else none
      else if c = 34 then
        match parseJsonStringBody (f + 1) r with
        | some (s, rest) => some (.jstr s, rest)
        | none => none
      else if c = 45 then
        match r.takeWhile isDigitCp with
        | [] => none
        | ds => some (.jnum (-(Int.ofNat (digitsToNat ds))), r.dropWhile isDigitCp)
      else if isDigitCp c then
        some (.jnum (Int.ofNat (digitsToNat (c :: r.takeWhile isDigitCp))),
          r.dropWhile isDigitCp)
      else if c = 91 then
        match skipJsonWS r with
        | 93 :: rest => some (.jarr [], rest)
        | _ =>
          match parseJsonElems f r with
          | some (xs, rest) => some (.jarr xs, rest)
          | none => none
      else if c = 123 then
        match skipJsonWS r with
        | 125 :: rest => some (.jobj [], rest)
        | _ =>
          match parseJsonFields f r with
          | some (kvs, rest) => some (.jobj kvs, rest)
          | none => none
      else none

/-- Parse one or more array elements and the closing bracket. -/
def parseJsonElems : Nat → List Nat → Option (List JVal × List Nat)
  | 0, _ => none
  | f + 1, cs =>
    match parseJsonVal f cs with
    | none => none
    | some (v, rest) =>
      match skipJsonWS rest with
      | 44 :: rest2 =>
        match parseJsonElems f rest2 with
        | some (vs, rest3) => some (v :: vs, rest3)
        | none => none
      | 93 :: rest2 => some ([v], rest2)
      | _ => none

/-- Parse one or more object fields and the closing brace. -/
def parseJsonFields : Nat → List Nat → Option (List (List Nat × JVal) × List Nat)
  | 0, _ => none
  | f + 1, cs =>
    match skipJsonWS cs with
    | 34 :: r =>
      match parseJsonStringBody (f + 1) r with
      | none => none
      | some (k, rest) =>
        match skipJsonWS rest with
        | 58 :: rest2 =>
          match parseJsonVal f rest2 with
          | none => none
          | some (v, rest3) =>
            match skipJsonWS rest3 with
            | 44 :: rest4 =>
              match parseJsonFields f rest4 with
              | some (kvs, rest5) => some ((k, v) :: kvs, rest5)
              | none => none
            | 125 :: rest4 => some ([(k, v)], rest4)
            | _ => none
        | _ => none
    | _ => none

end

/-- json.loads on decoded text: parse one value and require only
whitespace after it. -/
def json_loads (cs : List Nat) : Option JVal :=
  match parseJsonVal (2 * cs.length + 8) cs with
  | some (v, rest) => if (skipJsonWS rest).isEmpty then some v else none
  | none => none

/-- Python str() on the scalar payloads the engine stringifies. -/
def pyStr : JVal → List Nat
  | .jstr s => s
  | .jnum n => intDecimal n
  | .jbool true => strCps "True"
  | .jbool false => strCps "False"
  | .jnull => strCps "None"
  | v => jsonDump v 0

/-! The engine's own checksum-tag handling (CHECKSUM_TAG_FORMAT,
CHECKSUM_TAG_REGEX, strip_tags).  Unlike ark_checksum's pattern, this
regex is case-sensitive, fixed-width, unanchored, and applied to
decoded text. -/

def engTagPre : List Nat := strCps "<!-- [ARK_INTEGRITY_CHECKSUM::sha256:"
def engTagSuf : List Nat := strCps "] -->"

/-- The integrity tag line for a digest, as code points. -/
def CHECKSUM_TAG (digest : List Nat) : List Nat := engTagPre ++ digest ++ engTagSuf

/-- Does CHECKSUM_TAG_REGEX match at the head of the text? -/
def isEngineTagAt (cs : List Nat) : Bool :=
  decide (cs.take 37 = engTagPre) && ((cs.drop 37).take 64).all isHexLower &&
  decide (((cs.drop 37).take 64).length = 64) && decide ((cs.drop 101).take 5 = engTagSuf)

/-- Scanner for removeEngineTags: skip counts characters of an already
matched tag still to discard; at skip zero, a fresh match discards the
whole 106-character tag and scanning resumes after it. -/
def remTagsAux : List Nat → Nat → List Nat
  | [], _ => []
  | _ :: r, skp + 1 => remTagsAux r skp
  | c :: r, 0 =>
    if isEngineTagAt (c :: r) then remTagsAux r 105
    else c :: remTagsAux r 0

/-- re.sub of CHECKSUM_TAG_REGEX with the empty replacement: remove all
non-overlapping matches, scanning left to right. -/
def removeEngineTags (cs : List Nat) : List Nat := remTagsAux cs 0

/-- Transaction.process_operation's strip_tags helper: decode, drop all
engine-format tags, strip surrounding whitespace, re-encode. -/
def strip_tags (data : Option Bytes) : Bytes :=
  match data with
  | none => []
  | some bs =>
    if bs = [] then []
    else utf8Encode (pyStrip (removeEngineTags (decode_file_content bs)))

/-! The file tree, operations, and the transaction engine.  Paths are
code-point lists (the characters of the repo-relative path string). -/

/-- Split a path at slash characters (str.split semantics). -/
def splitSlash : List Nat → List (List Nat)
  | [] => [[]]
  | c :: r =>
    let rest := splitSlash r
    if c = 47 then [] :: rest
    else
      match rest with
      | s :: ss => (c :: s) :: ss
      | [] => [[c]]

def joinSlash : List (List Nat) → List Nat
  | [] => []
  | [s] => s
  | s :: t :: ss => s ++ 47 :: joinSlash (t :: ss)

/-- Normalized root-relative resolution of an operation path (safe_path
with POSIX abspath semantics and no symlinks): dot and empty segments
vanish, dot-dot pops, and the result must stay inside the managed
root.  none models the SecurityException. -/
def resolvePath (p : List Nat) : Option (List Nat) :=
  if p.head? = some 47 then none
  else
    let step : Option (List (List Nat)) → List Nat → Option (List (List Nat)) := fun acc seg =>
      match acc with
      | none => none
      | some stk =>
        if seg = [] ∨ seg = [46] then some stk
        else if seg = [46, 46] then
          match stk with
          | [] => none
          | _ :: rest => some rest
        else some (seg :: stk)
    match (splitSlash p).foldl step (some []) with
    | none => none
    | some stk => some (joinSlash stk.reverse)

def basenameOf (p : List Nat) : List Nat := (splitSlash p).getLastD p

def dirnameOf (p : List Nat) : List Nat :=
  let parts := splitSlash p
  if parts.length ≤ 1 then [] else joinSlash parts.dropLast

/-- All prefixes of a path at slash boundaries, shortest first. -/
def ancestorPaths (p : List Nat) : List (List Nat) :=
  let parts := splitSlash p
  (List.range parts.length).map (fun i => joinSlash (parts.take (i + 1)))

structure FS where
  files : List (List Nat × Bytes)
  dirs : List (List Nat)
deriving DecidableEq

def FS.read (fs : FS) (p : List Nat) : Option Bytes :=
  match fs.files.find? (fun e => e.1 == p) with
  | some e => some e.2
  | none => none

def FS.isDir (fs : FS) (p : List Nat) : Bool := fs.dirs.contains p

def FS.write (fs : FS) (p : List Nat) (v : Bytes) : FS :=
  { fs with files := (p, v) :: fs.files.filter (fun e => ! (e.1 == p)) }

def FS.removeFile (fs : FS) (p : List Nat) : FS :=
  { fs with files := fs.files.filter (fun e => ! (e.1 == p)) }

def FS.addDir (fs : FS) (p : List Nat) : FS :=
  if fs.dirs.contains p then fs else { fs with dirs := p :: fs.dirs }

def FS.removeDir (fs : FS) (p : List Nat) : FS :=
  { fs with dirs := fs.dirs.filter (fun d => ! (d == p)) }

/-- os.path.exists. -/
def FS.pathPresent (fs : FS) (p : List Nat) : Bool := (fs.read p).isSome || fs.isDir p

/-- Entries strictly inside directory p (os.rmdir fails when any exist). -/
def FS.dirHasEntries (fs : FS) (p : List Nat) : Bool :=
  fs.files.any (fun e => (p ++ [47]).isPrefixOf e.1) ||
    fs.dirs.any (fun d => (p ++ [47]).isPrefixOf d)

/-- os.makedirs with exist_ok. -/
def FS.makedirs (fs : FS) (p : List Nat) : FS :=
  (ancestorPaths p).foldl (fun acc d => acc.addDir d) fs

/-- ensure_parent_dir. -/
def FS.ensureParentDir (fs : FS) (p : List Nat) : FS :=
  let parent := dirnameOf p
  if parent = [] then fs
  else if fs.pathPresent parent then fs
  else fs.makedirs parent

/-- One backup file: a fresh timestamp (mtime order), the base filename
it rotates against, and the raw copied bytes. -/
structure Backup where
  ts : Nat
  base : List Nat
  content : Bytes
deriving DecidableEq

inductive UndoRec
  | restoreFile (originalPath : List Nat) (ts : Nat) (base : List Nat)
  | deleteNewFile (path : List Nat)
  | deleteDirIfCreated (path : List Nat)
deriving DecidableEq

inductive Status
  | pending | success | noOp | fail
deriving DecidableEq

inductive ActionKind
  | createFile | modifyFile | deleteFile | replaceInFile
  | appendToFile | createDirectory | appendToJsonArray
deriving DecidableEq

inductive OpOutcome
  | success | noChange
deriving DecidableEq

structure ActRec where
  action : ActionKind
  path : List Nat
  outcome : OpOutcome
deriving DecidableEq

/-- Transaction state: the file tree, the backup store, the undo log
(in append order), and the receipt fields the claims mention. -/
structure TxSt where
  fs : FS
  backups : List Backup
  nextTs : Nat
  undo : List UndoRec
  actions : List ActRec
  updated : List (List Nat)
  rollbackErrors : List UndoRec
  status : Status
deriving DecidableEq

def initTx (fs0 : FS) (bs0 : List Backup) (t0 : Nat) : TxSt :=
  { fs := fs0, backups := bs0, nextTs := t0, undo := [], actions := [], updated := [],
    rollbackErrors := [], status := .pending }

def MAX_BACKUPS : Nat := 5

/-- Remove the oldest backup for a base filename. -/
def rotateOnce (bs : List Backup) (base : List Nat) : List Backup :=
  match ((bs.filter (fun b => b.base == base)).map Backup.ts).min? with
  | some t => bs.filter (fun b => ! (b.base == base && b.ts == t))
  | none => bs

def rotateIter : Nat → List Backup → List Nat → List Backup
  | 0, bs, _ => bs
  | n + 1, bs, base => rotateIter n (rotateOnce bs base) base

/-- create_backup_and_rotate: none when the target is absent; else copy
the raw bytes under a fresh timestamp and delete the oldest copies for
the same base filename beyond the retention count. -/
def create_backup_and_rotate (st : TxSt) (p : List Nat) : Option Nat × TxSt :=
  match st.fs.read p with
  | none => (none, st)
  | some content =>
    let base := basenameOf p
    let bs1 := st.backups ++ [⟨st.nextTs, base, content⟩]
    let excess := (bs1.filter (fun b => b.base == base)).length - MAX_BACKUPS
    (some st.nextTs,
      { st with backups := rotateIter excess bs1 base, nextTs := st.nextTs + 1 })

/-- One modification operation.  content none models an absent content
key; JVal.jnull models an explicit JSON null (Python None).  expected
is expected_checksum_before as the digest characters. -/
structure Op where
  action : ActionKind
  path : List Nat
  content : Option JVal
  expected : Option Bytes

inductive OpError
  | badOperation
  | securityViolation (path : List Nat)
  | isADirectoryError (path : List Nat)
  | stateConflictMissing (path : List Nat)
  | stateConflictMismatch (path : List Nat) (expected actual : Bytes)
  | stateConflictExists (path : List Nat) (actual : Bytes)
  | contentRequired (path : List Nat)
  | invalidJson (path : List Nat)
  | notAJsonArray (path : List Nat)
  | replaceOnMissingFile (path : List Nat)
  | contentTypeError (path : List Nat)
  | dataLossGuard (path : List Nat) (reason : GuardReason)
  | createDirOverFile (path : List Nat)
  | postWriteVerificationFailed (path : List Nat)
deriving DecidableEq

/-- Python truthiness of a JSON-derived value. -/
def jvFalsy : JVal → Bool
  | .jnull => true
  | .jbool b => !b
  | .jnum n => n == 0
  | .jstr s => s.isEmpty
  | .jarr xs => xs.isEmpty
  | .jobj kvs => kvs.isEmpty

def jobjGet (kvs : List (List Nat × JVal)) (key : String) : Option JVal :=
  (kvs.find? (fun kv => kv.1 == strCps key)).map (fun kv => kv.2)

/-- str.replace(pat, repl, 1): leftmost occurrence only.  Only called
with a non-empty pattern (falsy patterns short-circuit earlier). -/
def replaceFirst (pat repl : List Nat) : List Nat → List Nat
  | [] => []
  | c :: r =>
    if pat.isPrefixOf (c :: r) then repl ++ (c :: r).drop pat.length
    else c :: replaceFirst pat repl r

/-- new_text.replace of LF by CRLF, every occurrence. -/
def lfToCrlf : List Nat → List Nat
  | [] => []
  | 10 :: r => 13 :: 10 :: lfToCrlf r
  | c :: r => c :: lfToCrlf r

/-- Newline-style preservation and BOM reattachment at the end of
replace_in_file_logic. -/
def finishReplace (originalBytes : Bytes) (originalText newText : List Nat) : Bytes :=
  let newText2 :=
    if listHasInfix [13, 10] originalText ∧ ¬ listHasInfix [13, 10] newText = true
    then lfToCrlf newText else newText
  let newBytes := utf8Encode newText2
  if originalBytes.take 3 = BOM_BYTES ∧ ¬ newBytes.take 3 = BOM_BYTES
  then BOM_BYTES ++ newBytes else newBytes

/-- replace_in_file_logic over the regex oracle rsub (pattern,
replacement, text to substituted text and match count). -/
def replace_in_file_logic (rsub : List Nat → List Nat → List Nat → List Nat × Nat)
    (original : Bytes) (cspec : Option JVal) (path : List Nat) :
    Except OpError (Bytes × Nat) :=
  let text := decode_file_content original
  let run : List (List Nat × JVal) → Except OpError (Bytes × Nat) := fun kvs =>
    let patV := (jobjGet kvs "pattern").getD (.jstr [])
    let replV := (jobjGet kvs "replacement").getD (.jstr [])
    let isRegex := ! jvFalsy ((jobjGet kvs "regex").getD (.jbool false))
    if jvFalsy patV then .ok (original, 0)
    else
      match patV with
      | .jstr pat =>
        if isRegex then
          match replV with
          | .jstr repl =>
            let res := rsub pat repl text
            if res.2 = 0 then .ok (original, 0)
            else .ok (finishReplace original text res.1, res.2)
          | _ => .error (.contentTypeError path)
        else
          if listHasInfix pat text then
            match replV with
            | .jstr repl => .ok (finishReplace original text (replaceFirst pat repl text), 1)
            | _ => .error (.contentTypeError path)
          else .ok (original, 0)
      | _ => .error (.contentTypeError path)
  match cspec with
  | none => run []
  | some (.jobj kvs) => run kvs
  | some _ => .error (.contentTypeError path)

/-- The content bytes for CREATE_FILE, MODIFY_FILE and APPEND_TO_FILE:
dict and list payloads are JSON-serialized, scalars stringified; an
absent or null payload yields none (content required). -/
def buildContentBytes : Option JVal → Option Bytes
  | none => none
  | some .jnull => none
  | some (.jarr xs) => some (json_dumps (.jarr xs))
  | some (.jobj kvs) => some (json_dumps (.jobj kvs))
  | some v => some (utf8Encode (pyStr v))

/-- The existing content of an APPEND_TO_JSON_ARRAY target: an absent
file is treated as the empty array; existing content must parse as a
top-level JSON array. -/
def jsonBaseArray (path : List Nat) : Option Bytes → Except OpError (List JVal)
  | none => .ok []
  | some bs =>
    match json_loads (decode_file_content bs) with
    | none => .error (.invalidJson path)
    | some (.jarr xs) => .ok xs
    | some _ => .error (.notAJsonArray path)

/-- The elements an APPEND_TO_JSON_ARRAY payload contributes: a list
payload appends its elements, everything else appends one element, an
absent key appends nothing. -/
def jsonAppendPayload : Option JVal → List JVal
  | none => []
  | some (.jarr ys) => ys
  | some v => [v]

/-- The data-loss guard as process_operation invokes it. -/
def guardCheck (action : ActionKind) (originalBytes : Option Bytes) (finalBytes : Bytes) :
    Option GuardReason :=
  if (action = .modifyFile ∨ action = .replaceInFile) ∧ ¬ originalBytes.getD [] = [] then
    detect_truncation_or_placeholder originalBytes finalBytes
  else none

/-- Record a NO_CHANGE outcome. -/
def TxSt.recordNoChange (st : TxSt) (op : Op) : TxSt :=
  { st with actions := st.actions ++ [⟨op.action, op.path, .noChange⟩] }

/-- Record a SUCCESS outcome; content writes also append to updated_files. -/
def TxSt.recordSuccess (st : TxSt) (op : Op) (updatedFile : Bool) : TxSt :=
  { st with
    actions := st.actions ++ [⟨op.action, op.path, .success⟩],
    updated :=
      if updatedFile then
        if st.updated.contains op.path then st.updated else st.updated ++ [op.path]
      else st.updated }

/-- The shared tail of every content-writing action: compare
tag-stripped fingerprints, back up or mark for deletion, write the
cleaned content plus a fresh integrity tag atomically, verify the
write-back. -/
def writeContent (sha : Bytes → Bytes) (dryRun : Bool) (st : TxSt) (op : Op)
    (fp : List Nat) (originalBytes : Option Bytes) (finalBytes : Bytes) :
    TxSt × Option OpError :=
  let origClean := calculate_clean_checksum sha (some (strip_tags originalBytes))
  let newClean := calculate_clean_checksum sha (some (strip_tags (some finalBytes)))
  if origClean = newClean then (st.recordNoChange op, none)
  else
    let st1 := { st with fs := st.fs.ensureParentDir fp }
    let st2 :=
      if ¬ originalBytes.getD [] = [] then
        let pair := create_backup_and_rotate st1 fp
        match pair.1 with
        | some ts => { pair.2 with undo := pair.2.undo ++ [UndoRec.restoreFile fp ts (basenameOf fp)] }
        | none => pair.2
      else { st1 with undo := st1.undo ++ [UndoRec.deleteNewFile fp] }
    if dryRun then (st2.recordSuccess op true, none)
    else
      let clean := strip_tags (some finalBytes)
      let digest := calculate_clean_checksum sha (some clean)
      let toWrite := clean ++ [10] ++ utf8Encode (CHECKSUM_TAG digest) ++ [10]
      let st3 := { st2 with fs := st2.fs.write fp toWrite }
      let postClean := calculate_clean_checksum sha (some (strip_tags (some toWrite)))
      if ¬ postClean = digest then (st3, some (.postWriteVerificationFailed op.path))
      else (st3.recordSuccess op true, none)

/-- The per-action dispatch of process_operation, after the path,
read and checksum gates have passed. -/
def dispatchAction (sha : Bytes → Bytes)
    (rsub : List Nat → List Nat → List Nat → List Nat × Nat)
    (dryRun : Bool) (st : TxSt) (op : Op) (fp : List Nat)
    (originalBytes : Option Bytes) : TxSt × Option OpError :=
  match op.action with
          | .createFile =>
            match buildContentBytes op.content with
            | none => (st, some (.contentRequired op.path))
            | some finalBytes =>
              match guardCheck .createFile originalBytes finalBytes with
              | some r => (st, some (.dataLossGuard op.path r))
              | none => writeContent sha dryRun st op fp originalBytes finalBytes
          | .modifyFile =>
            match buildContentBytes op.content with
            | none => (st, some (.contentRequired op.path))
            | some finalBytes =>
              match guardCheck .modifyFile originalBytes finalBytes with
              | some r => (st, some (.dataLossGuard op.path r))
              | none => writeContent sha dryRun st op fp originalBytes finalBytes
          | .appendToFile =>
            match buildContentBytes op.content with
            | none => (st, some (.contentRequired op.path))
            | some app =>
              writeContent sha dryRun st op fp originalBytes (originalBytes.getD [] ++ app)
          | .appendToJsonArray =>
            match jsonBaseArray op.path originalBytes with
            | .error e => (st, some e)
            | .ok baseArr =>
              writeContent sha dryRun st op fp originalBytes
                (json_dumps (.jarr (baseArr ++ jsonAppendPayload op.content)))
          | .replaceInFile =>
            match originalBytes with
            | none => (st, some (.replaceOnMissingFile op.path))
            | some orig =>
              match replace_in_file_logic rsub orig op.content op.path with
              | .error e => (st, some e)
              | .ok res =>
                if res.2 = 0 then (st.recordNoChange op, none)
                else
                  match guardCheck .replaceInFile originalBytes res.1 with
                  | some r => (st, some (.dataLossGuard op.path r))
                  | none => writeContent sha dryRun st op fp originalBytes res.1
          | .deleteFile =>
            if originalBytes.isSome then
              let pair := create_backup_and_rotate st fp
              let st2 :=
                match pair.1 with
                | some ts =>
                  { pair.2 with undo := pair.2.undo ++ [UndoRec.restoreFile fp ts (basenameOf fp)] }
                | none => pair.2
              let st3 := if dryRun then st2 else { st2 with fs := st2.fs.removeFile fp }
              (st3.recordSuccess op false, none)
            else (st.recordSuccess op false, none)
          | .createDirectory =>
            if st.fs.pathPresent fp then (st, some (.createDirOverFile op.path))
            else
              let st1 := if dryRun then st else { st with fs := st.fs.makedirs fp }
              let st2 := { st1 with undo := st1.undo ++ [UndoRec.deleteDirIfCreated fp] }
              (st2.recordSuccess op false, none)

/-- Transaction.process_operation.  Returns the successor state and the
raised exception if any; on an exception the state keeps every
already-applied mutation, as the Python object does. -/
def process_operation (sha : Bytes → Bytes)
    (rsub : List Nat → List Nat → List Nat → List Nat × Nat)
    (dryRun : Bool) (st : TxSt) (op : Op) : TxSt × Option OpError :=
  if op.path = [] then (st, some .badOperation)
  else
    match resolvePath op.path with
    | none => (st, some (.securityViolation op.path))
    | some fp =>
      if st.fs.isDir fp then (st, some (.isADirectoryError op.path))
      else
        let originalBytes := st.fs.read fp
        let actual := calculate_clean_checksum sha originalBytes
        let gate : Option OpError :=
          match op.expected with
          | some e => if ¬ actual = e then some (.stateConflictMismatch op.path e actual) else none
          | none =>
            if op.action = .createFile then
              if originalBytes.isSome then some (.stateConflictExists op.path actual) else none
            else
              if originalBytes.isNone then some (.stateConflictMissing op.path) else none
        match gate with
        | some e => (st, some e)
        | none => dispatchAction sha rsub dryRun st op fp originalBytes

/-- Does the semantic-checksum gate pass? -/
def gatePasses (sha : Bytes → Bytes) (st : TxSt) (op : Op) (fp : List Nat) : Bool :=
  match op.expected with
  | some e => calculate_clean_checksum sha (st.fs.read fp) == e
  | none =>
    if op.action = .createFile then (st.fs.read fp).isNone else (st.fs.read fp).isSome

/-- The operation loop of Transaction.execute: stop at the first raise. -/
def runOps (sha : Bytes → Bytes)
    (rsub : List Nat → List Nat → List Nat → List Nat × Nat) (dryRun : Bool) :
    List Op → TxSt → TxSt × Option OpError
  | [], st => (st, none)
  | op :: rest, st =>
    let r := process_operation sha rsub dryRun st op
    match r.2 with
    | none => runOps sha rsub dryRun rest r.1
    | some e => (r.1, some e)

/-- Replay one undo record (Transaction.rollback body).  A missing
backup (shutil.move failure) is collected and skipped; a non-empty
directory (os.rmdir OSError) is skipped with a warning only. -/
def applyUndoRec (st : TxSt) (r : UndoRec) : TxSt :=
  match r with
  | .restoreFile orig ts _ =>
    match st.backups.find? (fun b => b.ts == ts) with
    | some b =>
      { st with
          fs := st.fs.write orig b.content,
          backups := st.backups.filter (fun b2 => ! (b2.ts == ts)) }
    | none => { st with rollbackErrors := st.rollbackErrors ++ [r] }
  | .deleteNewFile p => { st with fs := st.fs.removeFile p }
  | .deleteDirIfCreated p =>
    if st.fs.isDir p then
      if st.fs.dirHasEntries p then st else { st with fs := st.fs.removeDir p }
    else st

/-- Transaction.rollback: replay the undo log in strict reverse order,
continuing past failures. -/
def rollback (st : TxSt) : TxSt := st.undo.reverse.foldl applyUndoRec st

/-- Transaction.execute. -/
def execute (sha : Bytes → Bytes)
    (rsub : List Nat → List Nat → List Nat → List Nat × Nat)
    (dryRun : Bool) (ops : List Op) (st0 : TxSt) : TxSt :=
  if ops.isEmpty ∧ ¬ dryRun then { st0 with status := .noOp }
  else
    let r := runOps sha rsub dryRun ops st0
    match r.2 with
    | none =>
      if r.1.updated.isEmpty ∧ ¬ ops.isEmpty then { r.1 with status := .noOp }
      else { r.1 with status := .success }
    | some _ => rollback { r.1 with status := .fail }

/-! Lock handling and receipt emission in main. -/

structure LockState where
  marker : Option Nat
deriving DecidableEq

/-- main's lock acquisition (open with mode x): fails whenever the
marker file exists, else creates it recording the owner pid. -/
def acquire_lock (st : LockState) (pid : Nat) : Bool × LockState :=
  match st.marker with
  | some _ => (false, st)
  | none => (true, { marker := some pid })

/-- main's finally block: remove the marker when it records the current
process or a process that is no longer alive. -/
def release_lock (st : LockState) (pid : Nat) (alive : Nat → Bool) : LockState :=
  match st.marker with
  | none => st
  | some owner => if owner = pid ∨ alive owner = false then { marker := none } else st

inductive WriteEvent
  | writeTemp (tmp : String) (data : List Nat)
  | fsyncTemp (tmp : String)
  | renameOver (tmp target : String)
  | plainWrite (target : String) (data : List Nat)
deriving DecidableEq

/-- The I/O events of the engine's file write: staged temp write,
flush and fsync, atomic rename over the target. -/
def atomic_write_events (target tmp : String) (data : List Nat) : List WriteEvent :=
  [.writeTemp tmp data, .fsyncTemp tmp, .renameOver tmp target]

/-- The I/O events of main's receipt emission: one direct
open-and-dump write to the receipt path. -/
def receipt_write_events (receiptPath : String) (data : List Nat) : List WriteEvent :=
  [.plainWrite receiptPath data]

/-- Stage-then-rename discipline: a staged temp write and fsync of the
same temp file followed by its rename over the target, and nothing
else. -/
def usesStageThenRename (evs : List WriteEvent) (target : String) : Bool :=
  match evs with
  | [.writeTemp t1 _, .fsyncTemp t2, .renameOver t3 tgt] =>
    decide (t1 = t2) && decide (t2 = t3) && decide (tgt = target)
  | _ => false

/-- Receipt emission is wrapped in try/except and does not touch the
already-decided status, whether or not the dump succeeds. -/
def finalize_receipt_status (st : Status) (_emitOk : Bool) : Status := st

/-! Byte-string predicates used as side conditions of the integrity-tag
theorems. -/

/-- The digest oracle returns 64 lowercase-hex characters, as SHA-256
hexdigest does. -/
def ShaOk (sha : Bytes → Bytes) : Prop :=
  ∀ x, (sha x).length = 64 ∧ (sha x).all isHexLower = true

/-- No carriage-return byte. -/
def noCR (w : Bytes) : Bool := w.all (fun c => ! (c == 13))

/-- No occurrence of the comment opener that starts an integrity tag. -/
def noCommentOpen (w : Bytes) : Bool := ! listHasInfix [60, 33, 45, 45] w

/-! Concrete fixtures used by witnesses and counterexamples. -/

/-- A digest oracle for concrete runs: 64 a-characters for the empty
canonical form, 64 b-characters otherwise. -/
def shaAB : Bytes → Bytes :=
  fun bs => if bs = [] then List.replicate 64 97 else List.replicate 64 98

/-- A digest oracle giving 64 a-characters exactly on the canonical
form of the three bytes abc, 64 b-characters otherwise. -/
def shaAbc : Bytes → Bytes :=
  fun bs => if bs = [97, 98, 99] then List.replicate 64 97 else List.replicate 64 98

/-- A trivial regex oracle that never matches. -/
def rsubNone : List Nat → List Nat → List Nat → List Nat × Nat := fun _ _ t => (t, 0)

/-- A one-file tree holding hi at path a.txt. -/
def fsHi : FS := ⟨[(strCps "a.txt", [104, 105])], []⟩

/-- Caller content that already carries a correctly digested integrity
tag (under shaAbc): the stripped content abc, a newline, the tag line
embedding 64 a-characters, a final newline. -/
def c10content : List Nat :=
  strCps "abc" ++ [10] ++ CHECKSUM_TAG (List.replicate 64 97) ++ [10]

/-- A digest oracle giving 64 a-characters exactly on the canonical form
of the six bytes of the source text of a two-element JSON array, 64
b-characters otherwise. -/
def shaC8 : Bytes → Bytes :=
  fun bs => if bs = strCps "[1, 2]" then List.replicate 64 97 else List.replicate 64 98

/-- Replay a list of undo records front to back (rollback's fold). -/
def replayUndo (us : List UndoRec) (st : TxSt) : TxSt := us.foldl applyUndoRec st

/-- Pointwise agreement of the file maps together with equality of the
backup stores: exactly the data an undo replay reads to rebuild file
contents. -/
def RelFB (s1 s2 : TxSt) : Prop :=
  (∀ p, s1.fs.read p = s2.fs.read p) ∧ s1.backups = s2.backups

/-- Every stored file has non-empty content (so the engine's bytes
truthiness test agrees with presence). -/
def nonEmptyFiles (fs : FS) : Prop := ∀ e ∈ fs.files, ¬ e.2 = []

/-- Every backup timestamp is older than the next timestamp to be
issued. -/
def backupsFresh (st : TxSt) : Prop := ∀ b ∈ st.backups, b.ts < st.nextTs

/-- A two-operation batch whose first operation implicitly creates the
parent directory d and whose second operation fails. -/
def c1ops : List Op :=
  [⟨.modifyFile, strCps "d/x.txt", some (.jstr (strCps "hi")), some (List.replicate 64 97)⟩,
   ⟨.deleteFile, strCps "zz", none, none⟩]

/-!
Theorems begin here.
-/

/-! Canonicalizer equivalence lemmas (claim C3). -/

theorem rstripLf_append_ten (bs : Bytes) : rstripLf (bs ++ [10]) = rstripLf bs := by
  induction bs with
  | nil => rfl
  | cons b r ih => simp [rstripLf, ih]

theorem rstripLf_append_keep (bs : Bytes) (b : Nat) (hb : ¬ b = 10) :
    rstripLf (bs ++ [b]) = bs ++ [b] := by
  induction bs with
  | nil => simp [rstripLf, hb]
  | cons c r ih =>
    rcases hr : r ++ [b] with _ | ⟨x, xs⟩
    · simp at hr
    · simp only [List.cons_append, rstripLf, List.append_eq]
      rw [ih, hr]

theorem rstripLf_eq_spec (bs : Bytes) : rstripLf bs = specTrimNl bs := by
  induction bs using List.reverseRecOn with
  | nil => rfl
  | append_singleton r b ih =>
    by_cases hb : b = 10
    · subst hb
      rw [rstripLf_append_ten, ih]
      unfold specTrimNl
      simp [List.dropWhile_cons]
    · rw [rstripLf_append_keep _ _ hb]
      unfold specTrimNl
      simp [List.dropWhile_cons, hb]

theorem find?_cons_eq_ite (p : Nat → Bool) (a : Nat) (l : List Nat) :
    List.find? p (a :: l) = if p a then some a else List.find? p l := by
  by_cases h : p a
  · rw [List.find?_cons_of_pos _ h, if_pos h]
  · rw [List.find?_cons_of_neg _ h, if_neg h]

theorem stripTrailingTag_eq_specUntag (bs : Bytes) : stripTrailingTag bs = specUntag bs := by
  induction bs with
  | nil => rfl
  | cons b r ih =>
    unfold specUntag
    simp only [List.length_cons]
    rw [List.range_succ_eq_map, find?_cons_eq_ite]
    simp only [List.drop_zero]
    by_cases h : matchArkFull (b :: r)
    · rw [if_pos h]
      unfold stripTrailingTag
      rw [if_pos h]
      rfl
    · rw [if_neg h, List.find?_map]
      have hcomp : ((fun i => matchArkFull (List.drop i (b :: r))) ∘ Nat.succ) =
          fun i => matchArkFull (List.drop i r) := rfl
      rw [hcomp]
      unfold stripTrailingTag
      rw [if_neg h]
      show b :: stripTrailingTag r = _
      rw [ih]
      cases hfind :
          (List.range (r.length + 1)).find? (fun i => matchArkFull (List.drop i r)) with
      | none => simp [specUntag, hfind]
      | some i => simp [specUntag, hfind]

/-- Claim C3: the code's fingerprint equals the lowercase-hex digest of
the bytes canonicalized in the specification's order (strip BOM, CRLF
to LF, remove one trailing case-insensitive integrity tag, trim
trailing newlines), and an absent file (None input) fingerprints as
the digest of the empty byte string. -/
theorem c3_fingerprint_matches_spec :
    ∀ (sha : Bytes → Bytes) (data : Option Bytes),
      calculate_clean_checksum sha data = fingerprint_spec sha data ∧
      calculate_clean_checksum sha none = sha [] := by
  intro sha data
  refine ⟨?_, rfl⟩
  cases data with
  | none => rfl
  | some bs =>
    show sha (rstripLf (stripTrailingTag (crlfToLf (stripBom bs)))) =
      sha (specTrimNl (specUntag (crlfToLf (stripBom bs))))
    rw [stripTrailingTag_eq_specUntag, rstripLf_eq_spec]

/-! Engine-level helper lemmas. -/

/-- Under a resolvable path, a non-directory target and a passing
checksum gate, process_operation is its per-action dispatch. -/
theorem process_operation_eq_dispatch (sha : Bytes → Bytes)
    (rsub : List Nat → List Nat → List Nat → List Nat × Nat) (dryRun : Bool)
    (st : TxSt) (op : Op) (fp : List Nat)
    (hpath : ¬ op.path = []) (hres : resolvePath op.path = some fp)
    (hdir : st.fs.isDir fp = false) (hgate : gatePasses sha st op fp = true) :
    process_operation sha rsub dryRun st op =
      dispatchAction sha rsub dryRun st op fp (st.fs.read fp) := by
  unfold process_operation
  rw [if_neg hpath, hres]
  cases hexp : op.expected with
  | some e =>
    have he : calculate_clean_checksum sha (st.fs.read fp) = e := by
      simpa [gatePasses, hexp] using hgate
    simp [hdir, hexp, he]
  | none =>
    by_cases hact : op.action = .createFile
    · have he : st.fs.read fp = none := by
        simpa [gatePasses, hexp, hact, Option.isNone_iff_eq_none] using hgate
      simp [hdir, hexp, hact, he]
    · have he : (st.fs.read fp).isSome = true := by
        simpa [gatePasses, hexp, hact] using hgate
      have he2 : (st.fs.read fp).isNone = false := by
        cases h : st.fs.read fp <;> simp_all
      simp [hdir, hexp, hact, he2]

/-! Claim C2: optimistic concurrency. -/

/-- Claim C2: an operation that supplies an expected fingerprint
differing from the current one fails with a state-conflict error
carrying both the expected and the actual digest, and the failure
happens before any mutation: the transaction state, and in particular
the target file's bytes, are returned unchanged. -/
theorem c2_optimistic_concurrency (sha : Bytes → Bytes)
    (rsub : List Nat → List Nat → List Nat → List Nat × Nat) (dryRun : Bool)
    (st : TxSt) (op : Op) (fp : List Nat) (e : Bytes)
    (hpath : ¬ op.path = []) (hres : resolvePath op.path = some fp)
    (hdir : st.fs.isDir fp = false)
    (hexp : op.expected = some e)
    (hne : ¬ calculate_clean_checksum sha (st.fs.read fp) = e) :
    process_operation sha rsub dryRun st op =
      (st, some (.stateConflictMismatch op.path e
        (calculate_clean_checksum sha (st.fs.read fp)))) := by
  unfold process_operation
  rw [if_neg hpath, hres]
  simp [hdir, hexp, hne]

/-- Claim C2 witness: a stale fingerprint on a concrete file is
rejected with both digests and the state unchanged. -/
theorem c2_witness :
    process_operation shaAB rsubNone false (initTx fsHi [] 100)
        ⟨.modifyFile, strCps "a.txt", some (.jstr [120]), some (List.replicate 64 97)⟩ =
      (initTx fsHi [] 100,
        some (.stateConflictMismatch (strCps "a.txt") (List.replicate 64 97)
          (calculate_clean_checksum shaAB ((initTx fsHi [] 100).fs.read (strCps "a.txt"))))) :=
  c2_optimistic_concurrency shaAB rsubNone false (initTx fsHi [] 100)
    ⟨.modifyFile, strCps "a.txt", some (.jstr [120]), some (List.replicate 64 97)⟩
    (strCps "a.txt") (List.replicate 64 97)
    (by decide) (by decide) (by decide) rfl (by decide)

/-! Claim C5: lock acquisition semantics. -/

/-- Claim C5 counterexample: a lock marker whose recorded owner is dead
(orphaned) still makes acquisition fail, and the marker is neither
deleted nor retried -- the code has no staleness or liveness check on
the acquire side (the marker does not even record a time). -/
theorem c5_counterexample :
    (acquire_lock ⟨some 999⟩ 1).1 = false ∧
      ((acquire_lock ⟨some 999⟩ 1).2).marker = some 999 := by
  exact ⟨rfl, rfl⟩

/-- Claim C5 amended: acquisition fails exactly when a marker exists,
regardless of its age or its owner's liveness; stale or orphaned
markers are reclaimed only at release time, where the marker is
removed exactly when it is owned by the current process or its owner
is dead. -/
theorem c5_lock_semantics (st : LockState) (pid owner : Nat) (alive : Nat → Bool) :
    ((acquire_lock st pid).1 = true ↔ st.marker = none) ∧
      ((release_lock ⟨some owner⟩ pid alive).marker = none ↔
        (owner = pid ∨ alive owner = false)) := by
  constructor
  · cases h : st.marker with
    | none => simp [acquire_lock, h]
    | some q => simp [acquire_lock, h]
  · by_cases hc : owner = pid ∨ alive owner = false
    · simp [release_lock, hc]
    · simp [release_lock, hc]

/-! Claim C6: MODIFY_FILE requires presence. -/

/-- Claim C6 counterexample: a MODIFY_FILE on an absent file that
supplies the empty-content fingerprint as expected_checksum_before does
not fail -- it creates the file. -/
theorem c6_counterexample :
    ((process_operation shaAB rsubNone false (initTx ⟨[], []⟩ [] 100)
        ⟨.modifyFile, strCps "a.txt", some (.jstr (strCps "hello")),
          some (List.replicate 64 97)⟩).2 = none) ∧
      ((process_operation shaAB rsubNone false (initTx ⟨[], []⟩ [] 100)
        ⟨.modifyFile, strCps "a.txt", some (.jstr (strCps "hello")),
          some (List.replicate 64 97)⟩).1.fs.read (strCps "a.txt")).isSome = true := by
  constructor
  · decide
  · decide

/-- Claim C6 amended: a MODIFY_FILE without a supplied expected
fingerprint whose resolved target does not exist fails with a
state-conflict error and leaves the state, in particular the file
tree, unchanged (with a supplied fingerprint equal to the
empty-content digest the operation instead proceeds and may create the
file, as the counterexample shows). -/
theorem c6_modify_requires_presence (sha : Bytes → Bytes)
    (rsub : List Nat → List Nat → List Nat → List Nat × Nat) (dryRun : Bool)
    (st : TxSt) (op : Op) (fp : List Nat)
    (hpath : ¬ op.path = []) (hres : resolvePath op.path = some fp)
    (hdir : st.fs.isDir fp = false)
    (hact : op.action = .modifyFile) (hexp : op.expected = none)
    (habs : st.fs.read fp = none) :
    process_operation sha rsub dryRun st op = (st, some (.stateConflictMissing op.path)) := by
  unfold process_operation
  rw [if_neg hpath, hres]
  simp [hdir, hexp, hact, habs]

/-- Claim C6 witness: concrete absent-target MODIFY_FILE conflict. -/
theorem c6_witness :
    process_operation shaAB rsubNone false (initTx ⟨[], []⟩ [] 100)
        ⟨.modifyFile, strCps "a.txt", some (.jstr [120]), none⟩ =
      (initTx ⟨[], []⟩ [] 100, some (.stateConflictMissing (strCps "a.txt"))) :=
  c6_modify_requires_presence shaAB rsubNone false (initTx ⟨[], []⟩ [] 100)
    ⟨.modifyFile, strCps "a.txt", some (.jstr [120]), none⟩ (strCps "a.txt")
    (by decide) (by decide) (by decide) rfl rfl (by decide)

/-! Claim C7: status taxonomy. -/

/-- Claim C7 counterexample: a batch whose single DELETE_FILE removes
an existing file -- an effective change to the tree -- still ends with
status NO_OP, because deletions never enter updated_files. -/
theorem c7_counterexample :
    (execute shaAB rsubNone false [⟨.deleteFile, strCps "a.txt", none, none⟩]
        (initTx fsHi [] 100)).status = Status.noOp ∧
      (execute shaAB rsubNone false [⟨.deleteFile, strCps "a.txt", none, none⟩]
        (initTx fsHi [] 100)).fs.read (strCps "a.txt") = none ∧
      (initTx fsHi [] 100).fs.read (strCps "a.txt") = some [104, 105] := by
  refine ⟨by decide, by decide, by decide⟩

/-- Claim C7 amended: for a non-empty batch that completes without a
fatal error, the final status is NO_OP exactly when no content write
was recorded in updated_files, and SUCCESS exactly otherwise; file
deletions and directory creations do not count as updates, so a batch
of effective deletions alone ends as NO_OP (see the counterexample). -/
theorem c7_status_taxonomy (sha : Bytes → Bytes)
    (rsub : List Nat → List Nat → List Nat → List Nat × Nat) (dryRun : Bool)
    (ops : List Op) (st0 : TxSt)
    (hne : ops.isEmpty = false)
    (hok : (runOps sha rsub dryRun ops st0).2 = none) :
    ((execute sha rsub dryRun ops st0).status = Status.noOp ↔
      (runOps sha rsub dryRun ops st0).1.updated = []) ∧
      ((execute sha rsub dryRun ops st0).status = Status.success ↔
        ¬ (runOps sha rsub dryRun ops st0).1.updated = []) := by
  have hne2 : ops.isEmpty = false := hne
  by_cases hu : (runOps sha rsub dryRun ops st0).1.updated = []
  · constructor
    · simp [execute, hok, hne2, hu, List.isEmpty_iff]
    · simp [execute, hok, hne2, hu, List.isEmpty_iff]
  · have hu2 : (runOps sha rsub dryRun ops st0).1.updated.isEmpty = false := by
      cases h : (runOps sha rsub dryRun ops st0).1.updated with
      | nil => exact absurd h hu
      | cons a l => rfl
    constructor
    · simp [execute, hok, hne2, hu, hu2]
    · simp [execute, hok, hne2, hu, hu2]

/-- Claim C7 witness: a concrete completing batch (one CREATE_FILE)
instantiates the amended taxonomy. -/
theorem c7_witness :
    ((execute shaAB rsubNone false
        [⟨.createFile, strCps "n.txt", some (.jstr (strCps "hello")), none⟩]
        (initTx ⟨[], []⟩ [] 100)).status = Status.noOp ↔
      (runOps shaAB rsubNone false
        [⟨.createFile, strCps "n.txt", some (.jstr (strCps "hello")), none⟩]
        (initTx ⟨[], []⟩ [] 100)).1.updated = []) ∧
      ((execute shaAB rsubNone false
        [⟨.createFile, strCps "n.txt", some (.jstr (strCps "hello")), none⟩]
        (initTx ⟨[], []⟩ [] 100)).status = Status.success ↔
        ¬ (runOps shaAB rsubNone false
          [⟨.createFile, strCps "n.txt", some (.jstr (strCps "hello")), none⟩]
          (initTx ⟨[], []⟩ [] 100)).1.updated = []) :=
  c7_status_taxonomy shaAB rsubNone false
    [⟨.createFile, strCps "n.txt", some (.jstr (strCps "hello")), none⟩]
    (initTx ⟨[], []⟩ [] 100) rfl (by decide)

/-! Claim C4: the data-loss guard. -/

/-- The guard verdict is positive exactly for a sub-half-size candidate
or a candidate carrying a truncation/placeholder marker. -/
theorem detect_isSome_iff (orig cand : Bytes) (hne : ¬ orig = []) :
    (detect_truncation_or_placeholder (some orig) cand).isSome = true ↔
      (2 * cand.length < orig.length ∨ (markerFound cand).isSome = true) := by
  show (if orig = [] then (none : Option GuardReason)
      else if 2 * cand.length < orig.length then
        some (.sizeReduction orig.length cand.length)
      else
        match markerFound cand with
        | some m => some (.marker m)
        | none => none).isSome = true ↔ _
  rw [if_neg hne]
  by_cases hs : 2 * cand.length < orig.length
  · simp [hs]
  · simp only [hs, if_false]
    cases h : markerFound cand <;> simp [h, hs]

/-- The write tail raises only post-write verification failures. -/
theorem writeContent_error_cases (sha : Bytes → Bytes) (dryRun : Bool) (st : TxSt)
    (op : Op) (fp : List Nat) (ob : Option Bytes) (fb : Bytes) :
    (writeContent sha dryRun st op fp ob fb).2 = none ∨
      (writeContent sha dryRun st op fp ob fb).2 =
        some (.postWriteVerificationFailed op.path) := by
  unfold writeContent
  dsimp only
  split_ifs <;> simp

/-- Claim C4: for a MODIFY_FILE or REPLACE_IN_FILE operation on a file
with non-empty prior content (all other gates passing, and for
REPLACE_IN_FILE a matched pattern producing the candidate), the
operation raises the data-loss guard exactly when the candidate is
under half the prior byte length or contains a truncation/placeholder
marker from the fixed set. -/
theorem c4_data_loss_guard (sha : Bytes → Bytes)
    (rsub : List Nat → List Nat → List Nat → List Nat × Nat) (dryRun : Bool)
    (st : TxSt) (op : Op) (fp orig cand : List Nat)
    (hpath : ¬ op.path = []) (hres : resolvePath op.path = some fp)
    (hdir : st.fs.isDir fp = false) (hgate : gatePasses sha st op fp = true)
    (hread : st.fs.read fp = some orig) (hne : ¬ orig = [])
    (hcand :
      (op.action = .modifyFile ∧ buildContentBytes op.content = some cand) ∨
      (op.action = .replaceInFile ∧
        ∃ k, ¬ k = 0 ∧ replace_in_file_logic rsub orig op.content op.path = .ok (cand, k))) :
    (∃ r, (process_operation sha rsub dryRun st op).2 = some (.dataLossGuard op.path r)) ↔
      (2 * cand.length < orig.length ∨ (markerFound cand).isSome = true) := by
  rw [process_operation_eq_dispatch sha rsub dryRun st op fp hpath hres hdir hgate, hread,
    ← detect_isSome_iff orig cand hne]
  have hguard : guardCheck op.action (some orig) cand =
      detect_truncation_or_placeholder (some orig) cand := by
    rcases hcand with ⟨hact, _⟩ | ⟨hact, _⟩ <;>
      simp [guardCheck, hact, hne]
  rcases hcand with ⟨hact, hbuild⟩ | ⟨hact, k, hk, hrepl⟩
  · rw [hact] at hguard
    cases hdet : detect_truncation_or_placeholder (some orig) cand with
    | some r =>
      simp only [dispatchAction, hact, hbuild, hguard, hdet]
      constructor
      · intro _
        simp [hdet]
      · intro _
        exact ⟨r, rfl⟩
    | none =>
      simp only [dispatchAction, hact, hbuild, hguard, hdet, Option.isSome_none]
      constructor
      · rintro ⟨r, hr⟩
        rcases writeContent_error_cases sha dryRun st op fp (some orig) cand with h | h <;>
          rw [h] at hr <;> simp at hr
      · intro h
        exact absurd h (by simp)
  · rw [hact] at hguard
    cases hdet : detect_truncation_or_placeholder (some orig) cand with
    | some r =>
      simp only [dispatchAction, hact, hrepl, hguard, hdet, hk, if_neg hk]
      constructor
      · intro _
        simp [hdet]
      · intro _
        exact ⟨r, rfl⟩
    | none =>
      simp only [dispatchAction, hact, hrepl, hguard, hdet, Option.isSome_none, if_neg hk]
      constructor
      · rintro ⟨r, hr⟩
        rcases writeContent_error_cases sha dryRun st op fp (some orig) cand with h | h <;>
          rw [h] at hr <;> simp at hr
      · intro h
        exact absurd h (by simp)

/-- Claim C4 witness: replacing 1000 bytes by 10 raises the guard;
replacing 1000 bytes by 600 marker-free bytes does not. -/
theorem c4_witness :
    (∃ r, (process_operation shaAB rsubNone false
        (initTx ⟨[(strCps "big.txt", List.replicate 1000 120)], []⟩ [] 100)
        ⟨.modifyFile, strCps "big.txt", some (.jstr (strCps "0123456789")), none⟩).2 =
        some (.dataLossGuard (strCps "big.txt") r)) ∧
      ¬ (∃ r, (process_operation shaAB rsubNone false
        (initTx ⟨[(strCps "big.txt", List.replicate 100 120)], []⟩ [] 100)
        ⟨.modifyFile, strCps "big.txt", some (.jstr (List.replicate 60 121)), none⟩).2 =
        some (.dataLossGuard (strCps "big.txt") r)) := by
  constructor
  · exact (c4_data_loss_guard shaAB rsubNone false
      (initTx ⟨[(strCps "big.txt", List.replicate 1000 120)], []⟩ [] 100)
      ⟨.modifyFile, strCps "big.txt", some (.jstr (strCps "0123456789")), none⟩
      (strCps "big.txt") (List.replicate 1000 120) (strCps "0123456789")
      (by decide) (by decide) (by decide) (by decide) (by decide) (by decide)
      (Or.inl ⟨rfl, by decide⟩)).mpr (Or.inl (by decide))
  · intro h
    have h2 := (c4_data_loss_guard shaAB rsubNone false
      (initTx ⟨[(strCps "big.txt", List.replicate 100 120)], []⟩ [] 100)
      ⟨.modifyFile, strCps "big.txt", some (.jstr (List.replicate 60 121)), none⟩
      (strCps "big.txt") (List.replicate 100 120) (List.replicate 60 121)
      (by decide) (by decide) (by decide) (by decide) (by decide) (by decide)
      (Or.inl ⟨rfl, by decide⟩)).mp h
    revert h2
    decide

/-! Codec, byte-predicate and store lemmas shared by the integrity-tag
claims. -/

theorem isHexLower_isHexCI (c : Nat) (h : isHexLower c = true) : isHexCI c = true := by
  simp only [isHexLower, Bool.or_eq_true, Bool.and_eq_true, decide_eq_true_eq] at h
  simp only [isHexCI, Bool.or_eq_true, Bool.and_eq_true, decide_eq_true_eq]
  omega

theorem isHexLower_lt_128 (c : Nat) (h : isHexLower c = true) : c < 128 := by
  simp only [isHexLower, Bool.or_eq_true, Bool.and_eq_true, decide_eq_true_eq] at h
  omega

theorem isHexLower_ne_13 (c : Nat) (h : isHexLower c = true) : ¬ c = 13 := by
  simp only [isHexLower, Bool.or_eq_true, Bool.and_eq_true, decide_eq_true_eq] at h
  omega

theorem utf8Encode_ascii (xs : List Nat) (h : xs.all (fun c => decide (c < 128)) = true) :
    utf8Encode xs = xs := by
  induction xs with
  | nil => rfl
  | cons c cs ih =>
    simp only [List.all_cons, Bool.and_eq_true, decide_eq_true_eq] at h
    show utf8EncodeChar c ++ utf8Encode cs = c :: cs
    rw [ih h.2]
    unfold utf8EncodeChar
    rw [if_pos h.1]
    rfl

theorem utf8Decode?_ascii (xs : List Nat) (h : xs.all (fun c => decide (c < 128)) = true) :
    utf8Decode? xs = some xs := by
  induction xs with
  | nil => rfl
  | cons c cs ih =>
    simp only [List.all_cons, Bool.and_eq_true, decide_eq_true_eq] at h
    rw [utf8Decode?.eq_def]
    dsimp only
    rw [if_pos h.1, ih h.2]
    rfl

theorem FS.read_write (fs : FS) (p : List Nat) (v : Bytes) : (fs.write p v).read p = some v := by
  simp [FS.read, FS.write, List.find?]

theorem rstripLf_eq_nil_iff (w : Bytes) :
    rstripLf w = [] ↔ w.all (fun c => c == 10) = true := by
  induction w with
  | nil => simp [rstripLf]
  | cons c r ih =>
    simp only [List.all_cons, Bool.and_eq_true, beq_iff_eq]
    constructor
    · intro h
      rw [rstripLf] at h
      rcases hr : rstripLf r with _ | ⟨x, xs⟩
      · rw [hr] at h
        by_cases hc : c = 10
        · exact ⟨hc, ih.mp hr⟩
        · rw [if_neg hc] at h
          exact absurd h (by simp)
      · rw [hr] at h
        exact absurd h (by simp)
    · rintro ⟨hc, hall⟩
      rw [rstripLf, ih.mpr hall, if_pos hc]

theorem rstripLf_cons_not_all (c : Nat) (r : Bytes)
    (h : ¬ (c :: r).all (fun x => x == 10) = true) :
    rstripLf (c :: r) = c :: rstripLf r := by
  rw [rstripLf]
  rcases hr : rstripLf r with _ | ⟨x, xs⟩
  · have hall : r.all (fun x => x == 10) = true := (rstripLf_eq_nil_iff r).mp hr
    have hc : ¬ c = 10 := by
      intro hc
      exact h (by simp [hc, hall])
    show (if c = 10 then [] else [c]) = c :: ([] : List Nat)
    rw [if_neg hc]
  · rfl

theorem dropWhile_self_idem (p : Nat → Bool) (l : List Nat) :
    (l.dropWhile p).dropWhile p = l.dropWhile p := by
  induction l with
  | nil => rfl
  | cons c r ih =>
    by_cases hc : p c = true
    · simp [List.dropWhile_cons, hc, ih]
    · simp [List.dropWhile_cons, hc]

theorem rstripLf_idem (w : Bytes) : rstripLf (rstripLf w) = rstripLf w := by
  rw [rstripLf_eq_spec, rstripLf_eq_spec]
  unfold specTrimNl
  rw [List.reverse_reverse, dropWhile_self_idem]

theorem remTagsAux_skip (xs b : List Nat) (n : Nat) (h : xs.length ≤ n) :
    remTagsAux (xs ++ b) n = remTagsAux b (n - xs.length) := by
  induction xs generalizing n with
  | nil => simp
  | cons x t ih =>
    cases n with
    | zero => simp at h
    | succ m =>
      simp only [List.length_cons] at h
      have h2 : remTagsAux ((x :: t) ++ b) (m + 1) = remTagsAux (t ++ b) m := rfl
      rw [h2, ih m (by omega)]
      congr 1
      simp only [List.length_cons]
      omega

theorem isEngineTagAt_head_ne (c : Nat) (t : List Nat) (h : ¬ c = 60) :
    isEngineTagAt (c :: t) = false := by
  have hne : ¬ (c :: t).take 37 = engTagPre := by
    intro heq
    have h1 : ((c :: t).take 37).head? = some c := rfl
    have h2 : engTagPre.head? = some 60 := rfl
    rw [heq, h2] at h1
    exact h (Option.some.inj h1).symm
  have hd : decide ((c :: t).take 37 = engTagPre) = false := decide_eq_false hne
  simp only [isEngineTagAt, hd, Bool.false_and]

theorem isEngineTagAt_tag (d rest : List Nat) (hlen : d.length = 64)
    (hhex : d.all isHexLower = true) :
    isEngineTagAt (CHECKSUM_TAG d ++ rest) = true := by
  have hpre : engTagPre.length = 37 := rfl
  have h1 : CHECKSUM_TAG d ++ rest = engTagPre ++ (d ++ (engTagSuf ++ rest)) := by
    simp [CHECKSUM_TAG]
  have h2 : CHECKSUM_TAG d ++ rest = (engTagPre ++ d) ++ (engTagSuf ++ rest) := by
    simp [CHECKSUM_TAG]
  have hlen2 : (engTagPre ++ d).length = 101 := by
    rw [List.length_append, hpre, hlen]
  have htake : (CHECKSUM_TAG d ++ rest).take 37 = engTagPre := by
    rw [h1]; exact List.take_left' hpre
  have hdrop : (CHECKSUM_TAG d ++ rest).drop 37 = d ++ (engTagSuf ++ rest) := by
    rw [h1]; exact List.drop_left' hpre
  have htk64 : ((CHECKSUM_TAG d ++ rest).drop 37).take 64 = d := by
    rw [hdrop]; exact List.take_left' hlen
  have hdrop101 : (CHECKSUM_TAG d ++ rest).drop 101 = engTagSuf ++ rest := by
    rw [h2]; exact List.drop_left' hlen2
  have htk5 : ((CHECKSUM_TAG d ++ rest).drop 101).take 5 = engTagSuf := by
    rw [hdrop101]; exact List.take_left' rfl
  simp only [isEngineTagAt, htake, htk64, htk5, hlen, hhex]
  simp

theorem remTagsAux_tag (d rest : List Nat) (hlen : d.length = 64)
    (hhex : d.all isHexLower = true) :
    remTagsAux (CHECKSUM_TAG d ++ rest) 0 = remTagsAux rest 0 := by
  have hpre : engTagPre.length = 37 := rfl
  have hsuf : engTagSuf.length = 5 := rfl
  have hTlen : (CHECKSUM_TAG d).length = 106 := by
    simp only [CHECKSUM_TAG, List.length_append, hpre, hsuf, hlen]
  rcases htag : CHECKSUM_TAG d with _ | ⟨c0, tl⟩
  · rw [htag] at hTlen; simp at hTlen
  · have htl : tl.length = 105 := by
      rw [htag] at hTlen
      simp only [List.length_cons] at hTlen
      omega
    have hTag : isEngineTagAt (c0 :: (tl ++ rest)) = true := by
      have h := isEngineTagAt_tag d rest hlen hhex
      rw [htag, List.cons_append] at h
      exact h
    have hstep : remTagsAux (c0 :: (tl ++ rest)) 0 =
        if isEngineTagAt (c0 :: (tl ++ rest)) then remTagsAux (tl ++ rest) 105
        else c0 :: remTagsAux (tl ++ rest) 0 := rfl
    rw [List.cons_append, hstep, hTag, if_pos rfl,
        remTagsAux_skip tl rest 105 (by omega)]
    rw [htl]

theorem remTagsAux_no60 (a rest : List Nat)
    (ha : a.all (fun c => ! (c == 60)) = true) :
    remTagsAux (a ++ rest) 0 = a ++ remTagsAux rest 0 := by
  induction a with
  | nil => rfl
  | cons c t ih =>
    rw [List.all_cons, Bool.and_eq_true] at ha
    have hc : ¬ c = 60 := by simpa using ha.1
    have hstep : remTagsAux (c :: (t ++ rest)) 0 =
        if isEngineTagAt (c :: (t ++ rest)) then remTagsAux (t ++ rest) 105
        else c :: remTagsAux (t ++ rest) 0 := rfl
    rw [List.cons_append, hstep, isEngineTagAt_head_ne c (t ++ rest) hc,
        if_neg (by simp), ih ha.2, List.cons_append]

theorem removeEngineTags_clean_tagged (a d : List Nat)
    (ha : a.all (fun c => ! (c == 60)) = true)
    (hlen : d.length = 64) (hhex : d.all isHexLower = true) :
    removeEngineTags (a ++ 10 :: (CHECKSUM_TAG d ++ [10])) = a ++ [10, 10] := by
  have hsplit : a ++ 10 :: (CHECKSUM_TAG d ++ [10]) =
      (a ++ [10]) ++ (CHECKSUM_TAG d ++ [10]) := by simp
  have ha10 : (a ++ [10]).all (fun c => ! (c == 60)) = true := by
    rw [List.all_append, Bool.and_eq_true]
    exact ⟨ha, by decide⟩
  unfold removeEngineTags
  rw [hsplit, remTagsAux_no60 (a ++ [10]) (CHECKSUM_TAG d ++ [10]) ha10,
      remTagsAux_tag d [10] hlen hhex]
  have h10 : remTagsAux [10] 0 = [10] := rfl
  rw [h10]
  simp

theorem pyStrip_append_nls (cps : List Nat)
    (hlead : cps.dropWhile isPyWS = cps)
    (htrail : cps.reverse.dropWhile isPyWS = cps.reverse) :
    pyStrip (cps ++ [10, 10]) = cps := by
  rcases cps with _ | ⟨c0, t⟩
  · rfl
  · have hcws : isPyWS c0 = false := by
      by_contra hx
      rw [Bool.not_eq_false] at hx
      rw [List.dropWhile_cons, hx, if_pos rfl] at hlead
      have hle : (t.dropWhile isPyWS).length ≤ t.length :=
        (List.dropWhile_sublist isPyWS).length_le
      have hlg := congrArg List.length hlead
      simp only [List.length_cons] at hlg
      omega
    have h10 : isPyWS 10 = true := by decide
    have h1 : ((c0 :: t) ++ [10, 10]).dropWhile isPyWS = (c0 :: t) ++ [10, 10] := by
      rw [List.cons_append, List.dropWhile_cons, hcws]
      simp
    have h2 : ((c0 :: t) ++ [10, 10]).reverse = 10 :: 10 :: (c0 :: t).reverse := by
      simp
    have h3 : (10 :: 10 :: (c0 :: t).reverse).dropWhile isPyWS = (c0 :: t).reverse := by
      rw [List.dropWhile_cons, h10, if_pos rfl, List.dropWhile_cons, h10, if_pos rfl]
      exact htrail
    unfold pyStrip
    rw [h1, h2, h3, List.reverse_reverse]

theorem checksumTag_ascii (d : List Nat) (hhex : d.all isHexLower = true) :
    (CHECKSUM_TAG d).all (fun c => decide (c < 128)) = true := by
  have hd : d.all (fun c => decide (c < 128)) = true := by
    rw [List.all_eq_true] at hhex ⊢
    intro x hx
    exact decide_eq_true (isHexLower_lt_128 x (hhex x hx))
  simp only [CHECKSUM_TAG, List.all_append, Bool.and_eq_true]
  exact ⟨⟨by decide, hd⟩, by decide⟩

theorem utf8Encode_checksumTag (d : List Nat) (hhex : d.all isHexLower = true) :
    utf8Encode (CHECKSUM_TAG d) = CHECKSUM_TAG d :=
  utf8Encode_ascii _ (checksumTag_ascii d hhex)

theorem strip_tags_clean_tagged (a d : List Nat)
    (ha128 : a.all (fun c => decide (c < 128)) = true)
    (ha60 : a.all (fun c => ! (c == 60)) = true)
    (hlead : a.dropWhile isPyWS = a)
    (htrail : a.reverse.dropWhile isPyWS = a.reverse)
    (hlen : d.length = 64) (hhex : d.all isHexLower = true) :
    strip_tags (some (a ++ 10 :: (CHECKSUM_TAG d ++ [10]))) = a := by
  have hX128 : (a ++ 10 :: (CHECKSUM_TAG d ++ [10])).all (fun c => decide (c < 128)) = true := by
    simp only [List.all_append, List.all_cons, Bool.and_eq_true]
    exact ⟨ha128, by decide, checksumTag_ascii d hhex, by decide⟩
  have hne : ¬ (a ++ 10 :: (CHECKSUM_TAG d ++ [10])) = ([] : List Nat) := by simp
  have hdec : decode_file_content (a ++ 10 :: (CHECKSUM_TAG d ++ [10])) =
      a ++ 10 :: (CHECKSUM_TAG d ++ [10]) := by
    unfold decode_file_content
    rw [utf8Decode?_ascii _ hX128]
  simp only [strip_tags]
  rw [if_neg hne, hdec, removeEngineTags_clean_tagged a d ha60 hlen hhex,
      pyStrip_append_nls a hlead htrail, utf8Encode_ascii a ha128]

/-! Claim C9: receipt emission discipline. -/

/-- Claim C9 counterexample: the receipt emission is a single direct
open-and-dump write; it does not follow the engine's stage-then-rename
discipline. -/
theorem c9_counterexample :
    usesStageThenRename (receipt_write_events "receipt.json" [123]) "receipt.json" = false := by
  rfl

/-- Claim C9 amended: engine file mutations follow the
stage-then-rename discipline, but the receipt is persisted by a single
plain write to its dated path; a failure of that write still never
changes the already-decided transaction status. -/
theorem c9_receipt_emission (target tmp rp : String) (data rdata : List Nat)
    (st : Status) (ok : Bool) :
    usesStageThenRename (atomic_write_events target tmp data) target = true ∧
      receipt_write_events rp rdata = [WriteEvent.plainWrite rp rdata] ∧
      usesStageThenRename (receipt_write_events rp rdata) rp = false ∧
      finalize_receipt_status st ok = st := by
  refine ⟨?_, rfl, rfl, rfl⟩
  simp [usesStageThenRename, atomic_write_events]

/-! File-tree frame lemmas: directory creation never changes file
contents, and the backup helper never changes the tree. -/

theorem FS.addDir_read (fs : FS) (p q : List Nat) : (fs.addDir p).read q = fs.read q := by
  unfold FS.addDir
  split
  · rfl
  · rfl

theorem FS.foldl_addDir_read (fs : FS) (ds : List (List Nat)) (q : List Nat) :
    (ds.foldl (fun acc d => acc.addDir d) fs).read q = fs.read q := by
  induction ds generalizing fs with
  | nil => rfl
  | cons d t ih => rw [List.foldl_cons, ih, FS.addDir_read]

theorem FS.makedirs_read (fs : FS) (p q : List Nat) :
    (fs.makedirs p).read q = fs.read q :=
  FS.foldl_addDir_read fs (ancestorPaths p) q

theorem FS.ensureParentDir_read (fs : FS) (p q : List Nat) :
    (fs.ensureParentDir p).read q = fs.read q := by
  unfold FS.ensureParentDir
  dsimp only
  split
  · rfl
  · split
    · rfl
    · exact FS.makedirs_read fs (dirnameOf p) q

theorem create_backup_fst_of_read (st : TxSt) (p : List Nat) (c : Bytes)
    (h : st.fs.read p = some c) :
    (create_backup_and_rotate st p).1 = some st.nextTs := by
  unfold create_backup_and_rotate
  rw [h]

theorem shaC8_ok : ShaOk shaC8 := by
  intro x
  unfold shaC8
  split
  · exact ⟨by decide, by decide⟩
  · exact ⟨by decide, by decide⟩

theorem shaAbc_ok : ShaOk shaAbc := by
  intro x
  unfold shaAbc
  split
  · exact ⟨by decide, by decide⟩
  · exact ⟨by decide, by decide⟩

/-- The shared write path on a changed fingerprint over a non-empty
original: when the freshly tagged bytes strip back to the clean content,
the write succeeds and the target holds the clean content, a newline,
the integrity-tag line, and a final newline. -/
theorem writeContent_success (sha : Bytes → Bytes) (st : TxSt) (op : Op)
    (fp : List Nat) (bs fb : Bytes)
    (hsha : ShaOk sha) (hbs : ¬ bs = []) (hread : st.fs.read fp = some bs)
    (hchange : ¬ calculate_clean_checksum sha (some (strip_tags (some bs))) =
        calculate_clean_checksum sha (some (strip_tags (some fb))))
    (hpost : strip_tags (some (strip_tags (some fb) ++ 10 ::
        (CHECKSUM_TAG (calculate_clean_checksum sha (some (strip_tags (some fb)))) ++ [10]))) =
      strip_tags (some fb)) :
    (writeContent sha false st op fp (some bs) fb).2 = none ∧
    (writeContent sha false st op fp (some bs) fb).1.fs.read fp =
      some (strip_tags (some fb) ++ 10 ::
        (CHECKSUM_TAG (calculate_clean_checksum sha (some (strip_tags (some fb)))) ++ [10])) := by
  have hdig2 : (calculate_clean_checksum sha (some (strip_tags (some fb)))).all isHexLower =
      true := (hsha _).2
  have hread1 : ({ st with fs := st.fs.ensureParentDir fp } : TxSt).fs.read fp = some bs := by
    show (st.fs.ensureParentDir fp).read fp = some bs
    rw [FS.ensureParentDir_read]
    exact hread
  unfold writeContent
  dsimp only
  rw [if_neg hchange]
  rw [if_pos (show ¬ (some bs).getD [] = [] from hbs)]
  rw [create_backup_fst_of_read ({ st with fs := st.fs.ensureParentDir fp } : TxSt) fp bs hread1]
  dsimp only
  rw [if_neg Bool.false_ne_true]
  rw [utf8Encode_checksumTag (calculate_clean_checksum sha (some (strip_tags (some fb)))) hdig2]
  rw [List.append_assoc, List.append_assoc, List.singleton_append]
  rw [hpost]
  simp only [eq_self_iff_true, not_true, if_false]
  exact ⟨trivial, FS.read_write _ fp _⟩

/-! Claim C8: APPEND_TO_JSON_ARRAY behaviour. -/

/-- Claim C8 counterexample: an APPEND_TO_JSON_ARRAY operation on an
absent file without an expected fingerprint is rejected by the checksum
gate as a missing-state conflict before the action dispatch; the absent
file is not treated as the empty array. -/
theorem c8_counterexample :
    process_operation shaAB rsubNone false (initTx ⟨[], []⟩ [] 0)
      ⟨.appendToJsonArray, strCps "a.json", some (.jarr [.jnum 3, .jnum 4]), none⟩ =
      (initTx ⟨[], []⟩ [] 0, some (.stateConflictMissing (strCps "a.json"))) := by
  decide

/-- Claim C8 amended: an APPEND_TO_JSON_ARRAY operation on a present
file that parses as the JSON array [1,2], with payload [3,4], no
expected fingerprint, and a genuinely changed fingerprint, succeeds and
writes the serialized array [1,2,3,4] followed by the integrity-tag
line; the stored bytes strip back to exactly that serialization, which
parses as [1,2,3,4].  The dispatcher itself treats an absent target as
the empty array (unreachable through the gate without an expected
fingerprint), a list payload appends its elements, and a non-list
payload appends one element. -/
theorem c8_append_json_array (sha : Bytes → Bytes)
    (rsub : List Nat → List Nat → List Nat → List Nat × Nat)
    (st : TxSt) (p fp : List Nat) (bs : Bytes)
    (hsha : ShaOk sha) (hpath : ¬ p = []) (hres : resolvePath p = some fp)
    (hdir : st.fs.isDir fp = false) (hread : st.fs.read fp = some bs)
    (hparse : json_loads (decode_file_content bs) = some (.jarr [.jnum 1, .jnum 2]))
    (hchange : ¬ calculate_clean_checksum sha (some (strip_tags (some bs))) =
        calculate_clean_checksum sha
          (some (json_dumps (.jarr [.jnum 1, .jnum 2, .jnum 3, .jnum 4])))) :
    (process_operation sha rsub false st
        ⟨.appendToJsonArray, p, some (.jarr [.jnum 3, .jnum 4]), none⟩).2 = none ∧
    (process_operation sha rsub false st
        ⟨.appendToJsonArray, p, some (.jarr [.jnum 3, .jnum 4]), none⟩).1.fs.read fp =
      some (json_dumps (.jarr [.jnum 1, .jnum 2, .jnum 3, .jnum 4]) ++ 10 ::
        (CHECKSUM_TAG (calculate_clean_checksum sha
            (some (json_dumps (.jarr [.jnum 1, .jnum 2, .jnum 3, .jnum 4])))) ++ [10])) ∧
    strip_tags (some (json_dumps (.jarr [.jnum 1, .jnum 2, .jnum 3, .jnum 4]) ++ 10 ::
        (CHECKSUM_TAG (calculate_clean_checksum sha
            (some (json_dumps (.jarr [.jnum 1, .jnum 2, .jnum 3, .jnum 4])))) ++ [10]))) =
      json_dumps (.jarr [.jnum 1, .jnum 2, .jnum 3, .jnum 4]) ∧
    jsonBaseArray p none = .ok [] ∧
    (∀ ys, jsonAppendPayload (some (.jarr ys)) = ys) ∧
    (∀ v : JVal, (∀ ys, ¬ v = JVal.jarr ys) → jsonAppendPayload (some v) = [v]) := by
  have hsd : strip_tags (some (json_dumps (.jarr [.jnum 1, .jnum 2, .jnum 3, .jnum 4]))) =
      json_dumps (.jarr [.jnum 1, .jnum 2, .jnum 3, .jnum 4]) := by decide
  have hbsne : ¬ bs = [] := by
    intro h
    rw [h] at hparse
    have hs : (json_loads (decode_file_content ([] : Bytes))).isSome = true := by
      rw [hparse]
      rfl
    exact absurd hs (by decide)
  have hchange2 : ¬ calculate_clean_checksum sha (some (strip_tags (some bs))) =
      calculate_clean_checksum sha (some (strip_tags (some (json_dumps
        (.jarr [.jnum 1, .jnum 2, .jnum 3, .jnum 4]))))) := by
    rw [hsd]
    exact hchange
  have hpost : strip_tags (some (strip_tags (some (json_dumps
      (.jarr [.jnum 1, .jnum 2, .jnum 3, .jnum 4]))) ++ 10 ::
      (CHECKSUM_TAG (calculate_clean_checksum sha (some (strip_tags (some (json_dumps
        (.jarr [.jnum 1, .jnum 2, .jnum 3, .jnum 4])))))) ++ [10]))) =
      strip_tags (some (json_dumps (.jarr [.jnum 1, .jnum 2, .jnum 3, .jnum 4]))) := by
    rw [hsd]
    exact strip_tags_clean_tagged _ _ (by decide) (by decide) (by decide) (by decide)
      (hsha _).1 (hsha _).2
  have hws := writeContent_success sha st
    ⟨.appendToJsonArray, p, some (.jarr [.jnum 3, .jnum 4]), none⟩ fp bs
    (json_dumps (.jarr [.jnum 1, .jnum 2, .jnum 3, .jnum 4]))
    hsha hbsne hread hchange2 hpost
  rw [hsd] at hws hpost
  have hgate : gatePasses sha st
      ⟨.appendToJsonArray, p, some (.jarr [.jnum 3, .jnum 4]), none⟩ fp = true := by
    unfold gatePasses
    dsimp only
    rw [hread]
    rfl
  have hop := process_operation_eq_dispatch sha rsub false st
    ⟨.appendToJsonArray, p, some (.jarr [.jnum 3, .jnum 4]), none⟩ fp hpath hres hdir hgate
  have hbase : jsonBaseArray p (some bs) = .ok [.jnum 1, .jnum 2] := by
    unfold jsonBaseArray
    dsimp only
    rw [hparse]
  have hdisp : dispatchAction sha rsub false st
      ⟨.appendToJsonArray, p, some (.jarr [.jnum 3, .jnum 4]), none⟩ fp (some bs) =
      writeContent sha false st ⟨.appendToJsonArray, p, some (.jarr [.jnum 3, .jnum 4]), none⟩
        fp (some bs) (json_dumps (.jarr [.jnum 1, .jnum 2, .jnum 3, .jnum 4])) := by
    unfold dispatchAction
    dsimp only
    rw [hbase]
    rfl
  rw [hop, hread, hdisp]
  refine ⟨hws.1, hws.2, hpost, rfl, fun ys => rfl, ?_⟩
  intro v hv
  cases v with
  | jarr ys => exact absurd rfl (hv ys)
  | jnull => rfl
  | jbool b => rfl
  | jnum n => rfl
  | jstr s => rfl
  | jobj kvs => rfl

/-- Claim C8 witness at a concrete tree and oracle. -/
theorem c8_witness :
    (process_operation shaC8 rsubNone false
        (initTx ⟨[(strCps "a.json", strCps "[1, 2]")], []⟩ [] 0)
        ⟨.appendToJsonArray, strCps "a.json", some (.jarr [.jnum 3, .jnum 4]), none⟩).2 = none ∧
    (process_operation shaC8 rsubNone false
        (initTx ⟨[(strCps "a.json", strCps "[1, 2]")], []⟩ [] 0)
        ⟨.appendToJsonArray, strCps "a.json", some (.jarr [.jnum 3, .jnum 4]), none⟩).1.fs.read
        (strCps "a.json") =
      some (json_dumps (.jarr [.jnum 1, .jnum 2, .jnum 3, .jnum 4]) ++ 10 ::
        (CHECKSUM_TAG (calculate_clean_checksum shaC8
            (some (json_dumps (.jarr [.jnum 1, .jnum 2, .jnum 3, .jnum 4])))) ++ [10])) := by
  have h := c8_append_json_array shaC8 rsubNone
    (initTx ⟨[(strCps "a.json", strCps "[1, 2]")], []⟩ [] 0)
    (strCps "a.json") (strCps "a.json") (strCps "[1, 2]")
    shaC8_ok (by decide) (by decide) (by decide) (by decide) rfl (by decide)
  exact ⟨h.1, h.2.1⟩

/-! Claim C10: the trailing integrity-tag invariant of content writes. -/

/-- Claim C10 counterexample: when the caller content is already in the
canonical tagged form, the bytes on disk after a successful CREATE_FILE
are exactly the caller-provided content. -/
theorem c10_counterexample :
    (process_operation shaAbc rsubNone false (initTx ⟨[], []⟩ [] 0)
        ⟨.createFile, strCps "n.md", some (.jstr c10content), none⟩).1.fs.read (strCps "n.md") =
      some c10content := by
  decide

/-- Claim C10 amended: every successful non-dry-run pass through the
shared write path with a changed fingerprint - whatever the action and
whatever the prior state of the target (absent, empty or non-empty) -
leaves the target holding the tag-stripped content, a newline, the
integrity-tag line embedding the canonical fingerprint of that stripped
content, and a final newline; and the fingerprint of the written bytes
equals the embedded digest.  The written bytes can coincide with the
caller-provided content. -/
theorem c10_tag_invariant (sha : Bytes → Bytes) (st : TxSt) (op : Op)
    (fp : List Nat) (ob : Option Bytes) (fb : Bytes)
    (hsha : ShaOk sha)
    (hchange : ¬ calculate_clean_checksum sha (some (strip_tags ob)) =
        calculate_clean_checksum sha (some (strip_tags (some fb))))
    (hsucc : (writeContent sha false st op fp ob fb).2 = none) :
    (writeContent sha false st op fp ob fb).1.fs.read fp =
      some (strip_tags (some fb) ++ 10 ::
        (CHECKSUM_TAG (calculate_clean_checksum sha (some (strip_tags (some fb)))) ++ [10])) ∧
    calculate_clean_checksum sha (some (strip_tags (some (strip_tags (some fb) ++ 10 ::
        (CHECKSUM_TAG (calculate_clean_checksum sha (some (strip_tags (some fb)))) ++ [10]))))) =
      calculate_clean_checksum sha (some (strip_tags (some fb))) := by
  have hdig2 : (calculate_clean_checksum sha (some (strip_tags (some fb)))).all isHexLower =
      true := (hsha _).2
  unfold writeContent at hsucc ⊢
  dsimp only at hsucc ⊢
  rw [if_neg hchange] at hsucc ⊢
  rw [if_neg Bool.false_ne_true] at hsucc ⊢
  rw [utf8Encode_checksumTag (calculate_clean_checksum sha (some (strip_tags (some fb))))
    hdig2] at hsucc ⊢
  rw [List.append_assoc, List.append_assoc, List.singleton_append] at hsucc ⊢
  by_cases hpd : calculate_clean_checksum sha (some (strip_tags (some (strip_tags (some fb) ++
      10 :: (CHECKSUM_TAG (calculate_clean_checksum sha (some (strip_tags (some fb)))) ++
        [10]))))) =
      calculate_clean_checksum sha (some (strip_tags (some fb)))
  · rw [if_neg (not_not_intro hpd)]
    exact ⟨FS.read_write _ fp _, hpd⟩
  · rw [if_pos hpd] at hsucc
    exact absurd hsucc (by simp)

/-- Claim C10 witness at a concrete oracle: a CREATE_FILE-style pass
over an absent target. -/
theorem c10_witness :
    (writeContent shaAbc false (initTx ⟨[], []⟩ [] 0)
        ⟨.createFile, strCps "n.md", some (.jstr (strCps "abc")), none⟩
        (strCps "n.md") none (strCps "abc")).1.fs.read (strCps "n.md") =
      some (strip_tags (some (strCps "abc")) ++ 10 ::
        (CHECKSUM_TAG (calculate_clean_checksum shaAbc
            (some (strip_tags (some (strCps "abc"))))) ++ [10])) ∧
    calculate_clean_checksum shaAbc (some (strip_tags (some (strip_tags (some (strCps "abc")) ++
        10 :: (CHECKSUM_TAG (calculate_clean_checksum shaAbc
          (some (strip_tags (some (strCps "abc"))))) ++ [10]))))) =
      calculate_clean_checksum shaAbc (some (strip_tags (some (strCps "abc")))) :=
  c10_tag_invariant shaAbc (initTx ⟨[], []⟩ [] 0)
    ⟨.createFile, strCps "n.md", some (.jstr (strCps "abc")), none⟩
    (strCps "n.md") none (strCps "abc")
    shaAbc_ok (by decide) (by decide)

/-! Rollback analysis: frame lemmas for the file map, the undo replay,
and the backup helper. -/

theorem find?_cons_ite2 {α : Type} (p : α → Bool) (a : α) (l : List α) :
    List.find? p (a :: l) = if p a = true then some a else List.find? p l := by
  by_cases h : p a = true
  · rw [List.find?_cons_of_pos _ h, if_pos h]
  · rw [List.find?_cons_of_neg _ h, if_neg h]

theorem find?_append_of_none {α : Type} (l1 l2 : List α) (p : α → Bool)
    (h : ∀ x ∈ l1, p x = false) :
    (l1 ++ l2).find? p = l2.find? p := by
  induction l1 with
  | nil => rfl
  | cons a t ih =>
    rw [List.cons_append, find?_cons_ite2, if_neg (by simp [h a (List.mem_cons_self a t)]),
      ih (fun x hx => h x (List.mem_cons_of_mem a hx))]

theorem filter_eq_self_of_all {α : Type} (l : List α) (p : α → Bool)
    (h : ∀ x ∈ l, p x = true) : l.filter p = l := by
  induction l with
  | nil => rfl
  | cons a t ih =>
    rw [List.filter_cons, if_pos (h a (List.mem_cons_self a t)),
      ih (fun x hx => h x (List.mem_cons_of_mem a hx))]

theorem find?_key_filter_ne (files : List (List Nat × Bytes)) (p q : List Nat) (h : ¬ q = p) :
    (files.filter (fun e => ! (e.1 == p))).find? (fun e => e.1 == q) =
      files.find? (fun e => e.1 == q) := by
  induction files with
  | nil => rfl
  | cons a t ih =>
    rw [List.filter_cons]
    by_cases hp : a.1 = p
    · rw [if_neg (by simp [hp]), ih, find?_cons_ite2,
        if_neg (by simp only [hp, beq_iff_eq]; exact fun hh => h hh.symm)]
    · rw [if_pos (by simp [hp]), find?_cons_ite2, find?_cons_ite2, ih]

theorem FS.read_write_ne (fs : FS) (p q : List Nat) (v : Bytes) (h : ¬ q = p) :
    (fs.write p v).read q = fs.read q := by
  unfold FS.read FS.write
  dsimp only
  rw [find?_cons_ite2, if_neg (by simp only [beq_iff_eq]; exact fun hh => h hh.symm),
    find?_key_filter_ne fs.files p q h]

theorem FS.read_removeFile_self (fs : FS) (p : List Nat) : (fs.removeFile p).read p = none := by
  unfold FS.read FS.removeFile
  dsimp only
  have hnone : (fs.files.filter (fun e => ! (e.1 == p))).find? (fun e => e.1 == p) = none := by
    rw [List.find?_eq_none]
    intro e he
    have hk := (List.mem_filter.mp he).2
    simp only [Bool.not_eq_true'] at hk
    simp [hk]
  rw [hnone]

theorem FS.read_removeFile_ne (fs : FS) (p q : List Nat) (h : ¬ q = p) :
    (fs.removeFile p).read q = fs.read q := by
  unfold FS.read FS.removeFile
  dsimp only
  rw [find?_key_filter_ne fs.files p q h]

theorem FS.removeDir_read (fs : FS) (p q : List Nat) : (fs.removeDir p).read q = fs.read q := rfl

theorem FS.addDir_files (fs : FS) (p : List Nat) : (fs.addDir p).files = fs.files := by
  unfold FS.addDir
  split
  · rfl
  · rfl

theorem FS.foldl_addDir_files (fs : FS) (ds : List (List Nat)) :
    (ds.foldl (fun acc d => acc.addDir d) fs).files = fs.files := by
  induction ds generalizing fs with
  | nil => rfl
  | cons d t ih => rw [List.foldl_cons, ih, FS.addDir_files]

theorem FS.makedirs_files (fs : FS) (p : List Nat) : (fs.makedirs p).files = fs.files :=
  FS.foldl_addDir_files fs (ancestorPaths p)

theorem FS.ensureParentDir_files (fs : FS) (p : List Nat) :
    (fs.ensureParentDir p).files = fs.files := by
  unfold FS.ensureParentDir
  dsimp only
  split
  · rfl
  · split
    · rfl
    · exact FS.makedirs_files fs (dirnameOf p)

theorem nonEmptyFiles_congr (fs1 fs2 : FS) (h : fs1.files = fs2.files)
    (hne : nonEmptyFiles fs2) : nonEmptyFiles fs1 :=
  fun e he => hne e (h ▸ he)

theorem nonEmptyFiles_write (fs : FS) (p : List Nat) (v : Bytes)
    (h : nonEmptyFiles fs) (hv : ¬ v = []) : nonEmptyFiles (fs.write p v) := by
  intro e he
  have he2 : e ∈ (p, v) :: fs.files.filter (fun e => ! (e.1 == p)) := he
  rw [List.mem_cons] at he2
  rcases he2 with he2 | he2
  · rw [he2]
    exact hv
  · exact h e (List.mem_filter.mp he2).1

theorem nonEmptyFiles_removeFile (fs : FS) (p : List Nat)
    (h : nonEmptyFiles fs) : nonEmptyFiles (fs.removeFile p) := by
  intro e he
  have he2 : e ∈ fs.files.filter (fun e => ! (e.1 == p)) := he
  exact h e (List.mem_filter.mp he2).1

theorem read_nonEmpty (fs : FS) (p : List Nat) (bs : Bytes)
    (hne : nonEmptyFiles fs) (h : fs.read p = some bs) : ¬ bs = [] := by
  unfold FS.read at h
  cases hf : fs.files.find? (fun e => e.1 == p) with
  | none =>
    rw [hf] at h
    exact absurd h (by simp)
  | some e =>
    rw [hf] at h
    have hb2 : e.2 = bs := Option.some.inj h
    rw [← hb2]
    exact hne e (List.mem_of_find?_eq_some hf)

theorem applyUndoRec_status_eq (st : TxSt) (u : UndoRec) :
    (applyUndoRec st u).status = st.status := by
  cases u with
  | restoreFile orig ts base =>
    unfold applyUndoRec
    dsimp only
    cases st.backups.find? (fun b => b.ts == ts) <;> rfl
  | deleteNewFile p => rfl
  | deleteDirIfCreated p =>
    unfold applyUndoRec
    dsimp only
    split_ifs <;> rfl

theorem replayUndo_status_eq (us : List UndoRec) (st : TxSt) :
    (replayUndo us st).status = st.status := by
  induction us generalizing st with
  | nil => rfl
  | cons u t ih =>
    show (replayUndo t (applyUndoRec st u)).status = st.status
    rw [ih, applyUndoRec_status_eq]

theorem applyUndoRec_dir_read (st : TxSt) (p q : List Nat) :
    (applyUndoRec st (.deleteDirIfCreated p)).fs.read q = st.fs.read q := by
  unfold applyUndoRec
  dsimp only
  split_ifs
  · rfl
  · exact FS.removeDir_read st.fs p q
  · rfl

theorem applyUndoRec_dir_backups (st : TxSt) (p : List Nat) :
    (applyUndoRec st (.deleteDirIfCreated p)).backups = st.backups := by
  unfold applyUndoRec
  dsimp only
  split_ifs <;> rfl

theorem applyUndoRec_rel (s1 s2 : TxSt) (u : UndoRec) (h : RelFB s1 s2) :
    RelFB (applyUndoRec s1 u) (applyUndoRec s2 u) := by
  obtain ⟨hr, hb⟩ := h
  cases u with
  | restoreFile orig ts base =>
    unfold applyUndoRec
    dsimp only
    rw [hb]
    cases hf : s2.backups.find? (fun b => b.ts == ts) with
    | some b =>
      refine ⟨?_, rfl⟩
      intro p
      by_cases hp : p = orig
      · rw [hp, FS.read_write, FS.read_write]
      · rw [FS.read_write_ne _ _ _ _ hp, FS.read_write_ne _ _ _ _ hp, hr]
    | none => exact ⟨hr, rfl⟩
  | deleteNewFile p =>
    refine ⟨?_, hb⟩
    intro q
    by_cases hq : q = p
    · rw [hq]
      show (s1.fs.removeFile p).read p = (s2.fs.removeFile p).read p
      rw [FS.read_removeFile_self, FS.read_removeFile_self]
    · show (s1.fs.removeFile p).read q = (s2.fs.removeFile p).read q
      rw [FS.read_removeFile_ne _ _ _ hq, FS.read_removeFile_ne _ _ _ hq, hr]
  | deleteDirIfCreated p =>
    constructor
    · intro q
      rw [applyUndoRec_dir_read, applyUndoRec_dir_read, hr]
    · rw [applyUndoRec_dir_backups, applyUndoRec_dir_backups, hb]

theorem replayUndo_rel (us : List UndoRec) (s1 s2 : TxSt) (h : RelFB s1 s2) :
    RelFB (replayUndo us s1) (replayUndo us s2) := by
  induction us generalizing s1 s2 with
  | nil => exact h
  | cons u t ih => exact ih _ _ (applyUndoRec_rel s1 s2 u h)

theorem rollback_step_frame (fs0 : FS) (st st2 : TxSt)
    (hfs : ∀ p, st2.fs.read p = st.fs.read p) (hbk : st2.backups = st.backups)
    (hud : st2.undo = st.undo) (hnt : st2.nextTs = st.nextTs)
    (hfiles : st2.fs.files = st.fs.files)
    (hne : nonEmptyFiles st.fs) (hfresh : backupsFresh st)
    (hRB : ∀ p, (replayUndo st.undo.reverse st).fs.read p = fs0.read p) :
    nonEmptyFiles st2.fs ∧ backupsFresh st2 ∧ st2.backups.length ≤ st.backups.length + 1 ∧
    (∀ p, (replayUndo st2.undo.reverse st2).fs.read p = fs0.read p) := by
  refine ⟨nonEmptyFiles_congr _ _ hfiles hne, ?_, by rw [hbk]; exact Nat.le_succ _, ?_⟩
  · intro b hb
    rw [hnt]
    exact hfresh b (hbk ▸ hb)
  · intro p
    rw [hud]
    rw [(replayUndo_rel st.undo.reverse st2 st ⟨hfs, hbk⟩).1 p]
    exact hRB p

theorem rollback_step_extend (fs0 : FS) (st st2 : TxSt) (new : List UndoRec)
    (hud : st2.undo = st.undo ++ new)
    (hrel : RelFB (replayUndo new.reverse st2) st)
    (hRB : ∀ p, (replayUndo st.undo.reverse st).fs.read p = fs0.read p) :
    ∀ p, (replayUndo st2.undo.reverse st2).fs.read p = fs0.read p := by
  intro p
  rw [hud, List.reverse_append]
  have h1 : replayUndo (new.reverse ++ st.undo.reverse) st2 =
      replayUndo st.undo.reverse (replayUndo new.reverse st2) := by
    unfold replayUndo
    rw [List.foldl_append]
  rw [h1, (replayUndo_rel st.undo.reverse _ _ hrel).1 p]
  exact hRB p

theorem create_backup_eq_of_read (st : TxSt) (p : List Nat) (c : Bytes)
    (h : st.fs.read p = some c) (hcap : st.backups.length ≤ 4) :
    create_backup_and_rotate st p =
      (some st.nextTs,
       { st with
         backups := st.backups ++ [⟨st.nextTs, basenameOf p, c⟩],
         nextTs := st.nextTs + 1 }) := by
  unfold create_backup_and_rotate
  rw [h]
  dsimp only
  have hlen : ((st.backups ++ [(⟨st.nextTs, basenameOf p, c⟩ : Backup)]).filter
      (fun b => b.base == basenameOf p)).length ≤ st.backups.length + 1 := by
    have h1 : ((st.backups ++ [(⟨st.nextTs, basenameOf p, c⟩ : Backup)]).filter
        (fun b => b.base == basenameOf p)).length ≤
        (st.backups ++ [(⟨st.nextTs, basenameOf p, c⟩ : Backup)]).length :=
      List.length_filter_le _ _
    rw [List.length_append] at h1
    exact h1
  have hex : ((st.backups ++ [(⟨st.nextTs, basenameOf p, c⟩ : Backup)]).filter
      (fun b => b.base == basenameOf p)).length - MAX_BACKUPS = 0 := by
    rw [show MAX_BACKUPS = 5 from rfl]
    omega
  rw [hex]
  rfl

/-- Replaying a fresh restore record over any state whose tree agrees
with the pre-operation tree away from the target brings the file map
back to the pre-operation tree and the backup store back to the
pre-operation store. -/
theorem restore_step (fs0 : FS) (st : TxSt) (fp : List Nat) (bs : Bytes) (fsnew : FS)
    (hread : st.fs.read fp = some bs)
    (hq : ∀ q, ¬ q = fp → fsnew.read q = st.fs.read q)
    (hnef : nonEmptyFiles fsnew)
    (hfresh : backupsFresh st) (hcap : st.backups.length ≤ 4)
    (hRB : ∀ p, (replayUndo st.undo.reverse st).fs.read p = fs0.read p)
    (st2 : TxSt)
    (hfs : st2.fs = fsnew)
    (hbk : st2.backups = st.backups ++ [(⟨st.nextTs, basenameOf fp, bs⟩ : Backup)])
    (hud : st2.undo = st.undo ++ [UndoRec.restoreFile fp st.nextTs (basenameOf fp)])
    (hnt : st2.nextTs = st.nextTs + 1) :
    nonEmptyFiles st2.fs ∧ backupsFresh st2 ∧ st2.backups.length ≤ st.backups.length + 1 ∧
    (∀ p, (replayUndo st2.undo.reverse st2).fs.read p = fs0.read p) := by
  have hfind : (st.backups ++ [(⟨st.nextTs, basenameOf fp, bs⟩ : Backup)]).find?
      (fun b => b.ts == st.nextTs) = some (⟨st.nextTs, basenameOf fp, bs⟩ : Backup) := by
    rw [find?_append_of_none]
    · rw [find?_cons_ite2, if_pos (by simp)]
    · intro b hb
      simp only [beq_eq_false_iff_ne, ne_eq]
      exact Nat.ne_of_lt (hfresh b hb)
  have hfilter : (st.backups ++ [(⟨st.nextTs, basenameOf fp, bs⟩ : Backup)]).filter
      (fun b2 => ! (b2.ts == st.nextTs)) = st.backups := by
    rw [List.filter_append]
    have h1 : st.backups.filter (fun b2 => ! (b2.ts == st.nextTs)) = st.backups :=
      filter_eq_self_of_all _ _ (fun b hb => by
        simp only [Bool.not_eq_true', beq_eq_false_iff_ne, ne_eq]
        exact Nat.ne_of_lt (hfresh b hb))
    have h2 : ([(⟨st.nextTs, basenameOf fp, bs⟩ : Backup)]).filter
        (fun b2 => ! (b2.ts == st.nextTs)) = [] := by
      rw [List.filter_cons, if_neg (by simp)]
      rfl
    rw [h1, h2, List.append_nil]
  refine ⟨hfs ▸ hnef, ?_, ?_, ?_⟩
  · intro b hb
    rw [hbk] at hb
    rw [hnt]
    rcases List.mem_append.mp hb with hb | hb
    · exact Nat.lt_succ_of_lt (hfresh b hb)
    · rw [List.mem_singleton] at hb
      rw [hb]
      exact Nat.lt_succ_self _
  · rw [hbk, List.length_append]
    simp
  · apply rollback_step_extend fs0 st st2
      [UndoRec.restoreFile fp st.nextTs (basenameOf fp)] hud ?_ hRB
    show RelFB (applyUndoRec st2 (UndoRec.restoreFile fp st.nextTs (basenameOf fp))) st
    unfold applyUndoRec
    dsimp only
    rw [hbk, hfind]
    dsimp only
    constructor
    · intro q
      show (st2.fs.write fp bs).read q = st.fs.read q
      by_cases hqf : q = fp
      · rw [hqf, FS.read_write]
        exact hread.symm
      · rw [FS.read_write_ne _ _ _ _ hqf, hfs, hq q hqf]
    · show (st.backups ++ [(⟨st.nextTs, basenameOf fp, bs⟩ : Backup)]).filter
        (fun b2 => ! (b2.ts == st.nextTs)) = st.backups
      exact hfilter

/-- Replaying a fresh delete-new-file record over any state whose tree
agrees with the pre-operation tree away from the (previously absent)
target restores the file map; the backup store was untouched. -/
theorem newfile_step (fs0 : FS) (st : TxSt) (fp : List Nat) (fsnew : FS)
    (hread : st.fs.read fp = none)
    (hq : ∀ q, ¬ q = fp → fsnew.read q = st.fs.read q)
    (hnef : nonEmptyFiles fsnew)
    (hfresh : backupsFresh st)
    (hRB : ∀ p, (replayUndo st.undo.reverse st).fs.read p = fs0.read p)
    (st2 : TxSt)
    (hfs : st2.fs = fsnew)
    (hbk : st2.backups = st.backups)
    (hud : st2.undo = st.undo ++ [UndoRec.deleteNewFile fp])
    (hnt : st2.nextTs = st.nextTs) :
    nonEmptyFiles st2.fs ∧ backupsFresh st2 ∧ st2.backups.length ≤ st.backups.length + 1 ∧
    (∀ p, (replayUndo st2.undo.reverse st2).fs.read p = fs0.read p) := by
  refine ⟨hfs ▸ hnef, ?_, by rw [hbk]; exact Nat.le_succ _, ?_⟩
  · intro b hb
    rw [hnt]
    exact hfresh b (hbk ▸ hb)
  · apply rollback_step_extend fs0 st st2 [UndoRec.deleteNewFile fp] hud ?_ hRB
    show RelFB (applyUndoRec st2 (UndoRec.deleteNewFile fp)) st
    constructor
    · intro q
      show (st2.fs.removeFile fp).read q = st.fs.read q
      by_cases hqf : q = fp
      · rw [hqf, FS.read_removeFile_self]
        exact hread.symm
      · rw [FS.read_removeFile_ne _ _ _ hqf, hfs, hq q hqf]
    · show st2.backups = st.backups
      exact hbk

/-- Replaying a fresh directory-undo record never changes file
contents, so a directory-creating step keeps the file map rollback
intact. -/
theorem createdir_step (fs0 : FS) (st : TxSt) (fp : List Nat)
    (hne : nonEmptyFiles st.fs) (hfresh : backupsFresh st)
    (hRB : ∀ p, (replayUndo st.undo.reverse st).fs.read p = fs0.read p)
    (st2 : TxSt)
    (hfs : st2.fs = st.fs.makedirs fp)
    (hbk : st2.backups = st.backups)
    (hud : st2.undo = st.undo ++ [UndoRec.deleteDirIfCreated fp])
    (hnt : st2.nextTs = st.nextTs) :
    nonEmptyFiles st2.fs ∧ backupsFresh st2 ∧ st2.backups.length ≤ st.backups.length + 1 ∧
    (∀ p, (replayUndo st2.undo.reverse st2).fs.read p = fs0.read p) := by
  refine ⟨?_, ?_, by rw [hbk]; exact Nat.le_succ _, ?_⟩
  · exact nonEmptyFiles_congr _ _ (by rw [hfs, FS.makedirs_files]) hne
  · intro b hb
    rw [hnt]
    exact hfresh b (hbk ▸ hb)
  · apply rollback_step_extend fs0 st st2 [UndoRec.deleteDirIfCreated fp] hud ?_ hRB
    show RelFB (applyUndoRec st2 (UndoRec.deleteDirIfCreated fp)) st
    constructor
    · intro q
      rw [applyUndoRec_dir_read, hfs, FS.makedirs_read]
    · rw [applyUndoRec_dir_backups, hbk]

/-- Any pass through the shared content-write path preserves the
rollback invariants: the recorded undo exactly reverts its file-map
effect. -/
theorem writeContent_rollback_step (sha : Bytes → Bytes) (fs0 : FS) (st st2 : TxSt)
    (op : Op) (fp : List Nat) (ob : Option Bytes) (fb : Bytes) (e : Option OpError)
    (hob : ob = st.fs.read fp)
    (hwc : writeContent sha false st op fp ob fb = (st2, e))
    (hne : nonEmptyFiles st.fs) (hfresh : backupsFresh st) (hcap : st.backups.length ≤ 4)
    (hRB : ∀ p, (replayUndo st.undo.reverse st).fs.read p = fs0.read p) :
    nonEmptyFiles st2.fs ∧ backupsFresh st2 ∧ st2.backups.length ≤ st.backups.length + 1 ∧
    (∀ p, (replayUndo st2.undo.reverse st2).fs.read p = fs0.read p) := by
  have htw : ∀ (w : Bytes), ¬ w ++ [10] = [] := by
    intro w hw
    simpa using congrArg List.length hw
  unfold writeContent at hwc
  dsimp only at hwc
  split at hwc
  · injection hwc with h1 h2
    subst h1
    exact rollback_step_frame fs0 st _ (fun p => rfl) rfl rfl rfl rfl hne hfresh hRB
  · cases hobv : ob with
    | none =>
      rw [hobv] at hwc hob
      rw [if_neg (show ¬¬((none : Option Bytes).getD [] = []) from not_not_intro rfl)] at hwc
      rw [if_neg Bool.false_ne_true] at hwc
      split at hwc <;>
      · injection hwc with h1 h2
        subst h1
        refine newfile_step fs0 st fp ((st.fs.ensureParentDir fp).write fp
            (strip_tags (some fb) ++ [10] ++ utf8Encode (CHECKSUM_TAG
              (calculate_clean_checksum sha (some (strip_tags (some fb))))) ++ [10]))
            hob.symm ?_ ?_ hfresh hRB _ rfl rfl rfl rfl
        · intro q hqf
          rw [FS.read_write_ne _ _ _ _ hqf, FS.ensureParentDir_read]
        · exact nonEmptyFiles_write _ _ _
            (nonEmptyFiles_congr _ _ (FS.ensureParentDir_files st.fs fp) hne) (htw _)
    | some bs =>
      rw [hobv] at hwc hob
      have hread : st.fs.read fp = some bs := hob.symm
      have hbs : ¬ bs = [] := read_nonEmpty st.fs fp bs hne hread
      rw [if_pos (show ¬ (some bs).getD [] = [] from hbs)] at hwc
      have hread1 : ({ st with fs := st.fs.ensureParentDir fp } : TxSt).fs.read fp =
          some bs := by
        show (st.fs.ensureParentDir fp).read fp = some bs
        rw [FS.ensureParentDir_read]
        exact hread
      rw [create_backup_eq_of_read ({ st with fs := st.fs.ensureParentDir fp } : TxSt)
        fp bs hread1 hcap] at hwc
      dsimp only at hwc
      rw [if_neg Bool.false_ne_true] at hwc
      split at hwc <;>
      · injection hwc with h1 h2
        subst h1
        refine restore_step fs0 st fp bs ((st.fs.ensureParentDir fp).write fp
            (strip_tags (some fb) ++ [10] ++ utf8Encode (CHECKSUM_TAG
              (calculate_clean_checksum sha (some (strip_tags (some fb))))) ++ [10]))
            hread ?_ ?_ hfresh hcap hRB _ rfl rfl rfl rfl
        · intro q hqf
          rw [FS.read_write_ne _ _ _ _ hqf, FS.ensureParentDir_read]
        · exact nonEmptyFiles_write _ _ _
            (nonEmptyFiles_congr _ _ (FS.ensureParentDir_files st.fs fp) hne) (htw _)

/-- One engine operation, successful or failing, preserves the rollback
invariants: files non-empty, backups fresh, at most one backup added,
and the full undo replay still restores the initial file map. -/
theorem process_operation_rollback_step (sha : Bytes → Bytes)
    (rsub : List Nat → List Nat → List Nat → List Nat × Nat) (fs0 : FS)
    (st st2 : TxSt) (e : Option OpError) (op : Op)
    (hpo : process_operation sha rsub false st op = (st2, e))
    (hne : nonEmptyFiles st.fs) (hfresh : backupsFresh st) (hcap : st.backups.length ≤ 4)
    (hRB : ∀ p, (replayUndo st.undo.reverse st).fs.read p = fs0.read p) :
    nonEmptyFiles st2.fs ∧ backupsFresh st2 ∧ st2.backups.length ≤ st.backups.length + 1 ∧
    (∀ p, (replayUndo st2.undo.reverse st2).fs.read p = fs0.read p) := by
  unfold process_operation at hpo
  dsimp only at hpo
  split at hpo
  · injection hpo with h1 h2
    subst h1
    exact rollback_step_frame fs0 st _ (fun p => rfl) rfl rfl rfl rfl hne hfresh hRB
  · split at hpo
    · injection hpo with h1 h2
      subst h1
      exact rollback_step_frame fs0 st _ (fun p => rfl) rfl rfl rfl rfl hne hfresh hRB
    · rename_i fp hres
      split at hpo
      · injection hpo with h1 h2
        subst h1
        exact rollback_step_frame fs0 st _ (fun p => rfl) rfl rfl rfl rfl hne hfresh hRB
      · split at hpo
        · injection hpo with h1 h2
          subst h1
          exact rollback_step_frame fs0 st _ (fun p => rfl) rfl rfl rfl rfl hne hfresh hRB
        · unfold dispatchAction at hpo
          split at hpo
          · -- CREATE_FILE
            split at hpo
            · injection hpo with h1 h2
              subst h1
              exact rollback_step_frame fs0 st _ (fun p => rfl) rfl rfl rfl rfl hne hfresh hRB
            · rename_i fb hfb
              split at hpo
              · injection hpo with h1 h2
                subst h1
                exact rollback_step_frame fs0 st _ (fun p => rfl) rfl rfl rfl rfl hne hfresh hRB
              · exact writeContent_rollback_step sha fs0 st st2 op fp (st.fs.read fp) fb e
                  rfl hpo hne hfresh hcap hRB
          · -- MODIFY_FILE
            split at hpo
            · injection hpo with h1 h2
              subst h1
              exact rollback_step_frame fs0 st _ (fun p => rfl) rfl rfl rfl rfl hne hfresh hRB
            · rename_i fb hfb
              split at hpo
              · injection hpo with h1 h2
                subst h1
                exact rollback_step_frame fs0 st _ (fun p => rfl) rfl rfl rfl rfl hne hfresh hRB
              · exact writeContent_rollback_step sha fs0 st st2 op fp (st.fs.read fp) fb e
                  rfl hpo hne hfresh hcap hRB
          · -- APPEND_TO_FILE
            split at hpo
            · injection hpo with h1 h2
              subst h1
              exact rollback_step_frame fs0 st _ (fun p => rfl) rfl rfl rfl rfl hne hfresh hRB
            · rename_i app happ
              exact writeContent_rollback_step sha fs0 st st2 op fp (st.fs.read fp)
                ((st.fs.read fp).getD [] ++ app) e rfl hpo hne hfresh hcap hRB
          · -- APPEND_TO_JSON_ARRAY
            split at hpo
            · injection hpo with h1 h2
              subst h1
              exact rollback_step_frame fs0 st _ (fun p => rfl) rfl rfl rfl rfl hne hfresh hRB
            · rename_i baseArr hbase
              exact writeContent_rollback_step sha fs0 st st2 op fp (st.fs.read fp)
                (json_dumps (.jarr (baseArr ++ jsonAppendPayload op.content))) e
                rfl hpo hne hfresh hcap hRB
          · -- REPLACE_IN_FILE
            split at hpo
            · injection hpo with h1 h2
              subst h1
              exact rollback_step_frame fs0 st _ (fun p => rfl) rfl rfl rfl rfl hne hfresh hRB
            · rename_i orig horig
              split at hpo
              · injection hpo with h1 h2
                subst h1
                exact rollback_step_frame fs0 st _ (fun p => rfl) rfl rfl rfl rfl hne hfresh hRB
              · rename_i res hrepl
                split at hpo
                · injection hpo with h1 h2
                  subst h1
                  exact rollback_step_frame fs0 st _ (fun p => rfl) rfl rfl rfl rfl hne hfresh hRB
                · split at hpo
                  · injection hpo with h1 h2
                    subst h1
                    exact rollback_step_frame fs0 st _ (fun p => rfl) rfl rfl rfl rfl hne hfresh hRB
                  · exact writeContent_rollback_step sha fs0 st st2 op fp (st.fs.read fp)
                      res.1 e rfl hpo hne hfresh hcap hRB
          · -- DELETE_FILE
            split at hpo
            · rename_i hsome
              cases hrd : st.fs.read fp with
              | none =>
                rw [hrd] at hsome
                exact absurd hsome (by simp)
              | some bs =>
                rw [create_backup_eq_of_read st fp bs hrd hcap] at hpo
                dsimp only at hpo
                rw [if_neg Bool.false_ne_true] at hpo
                injection hpo with h1 h2
                subst h1
                refine restore_step fs0 st fp bs (st.fs.removeFile fp) hrd ?_
                  (nonEmptyFiles_removeFile st.fs fp hne) hfresh hcap hRB _ rfl rfl rfl rfl
                intro q hqf
                exact FS.read_removeFile_ne st.fs fp q hqf
            · injection hpo with h1 h2
              subst h1
              exact rollback_step_frame fs0 st _ (fun p => rfl) rfl rfl rfl rfl hne hfresh hRB
          · -- CREATE_DIRECTORY
            split at hpo
            · injection hpo with h1 h2
              subst h1
              exact rollback_step_frame fs0 st _ (fun p => rfl) rfl rfl rfl rfl hne hfresh hRB
            · rw [if_neg Bool.false_ne_true] at hpo
              injection hpo with h1 h2
              subst h1
              exact createdir_step fs0 st fp hne hfresh hRB _ rfl rfl rfl rfl

theorem runOps_cons_none (sha : Bytes → Bytes)
    (rsub : List Nat → List Nat → List Nat → List Nat × Nat) (dryRun : Bool)
    (st st1 : TxSt) (op : Op) (rest : List Op)
    (hpo : process_operation sha rsub dryRun st op = (st1, none)) :
    runOps sha rsub dryRun (op :: rest) st = runOps sha rsub dryRun rest st1 := by
  have h : runOps sha rsub dryRun (op :: rest) st =
      match (process_operation sha rsub dryRun st op).2 with
      | none => runOps sha rsub dryRun rest (process_operation sha rsub dryRun st op).1
      | some e => ((process_operation sha rsub dryRun st op).1, some e) := rfl
  rw [h, hpo]

theorem runOps_cons_some (sha : Bytes → Bytes)
    (rsub : List Nat → List Nat → List Nat → List Nat × Nat) (dryRun : Bool)
    (st st1 : TxSt) (op : Op) (rest : List Op) (err : OpError)
    (hpo : process_operation sha rsub dryRun st op = (st1, some err)) :
    runOps sha rsub dryRun (op :: rest) st = (st1, some err) := by
  unfold runOps
  dsimp only
  rw [hpo]

/-- The operation loop preserves the rollback invariant: replaying the
accumulated undo log from wherever the loop stops restores the initial
file map. -/
theorem runOps_rollback_inv (sha : Bytes → Bytes)
    (rsub : List Nat → List Nat → List Nat → List Nat × Nat) (fs0 : FS)
    (ops : List Op) (st : TxSt)
    (hne : nonEmptyFiles st.fs) (hfresh : backupsFresh st)
    (hcap : st.backups.length + ops.length ≤ 5)
    (hRB : ∀ p, (replayUndo st.undo.reverse st).fs.read p = fs0.read p) :
    ∀ p, (replayUndo (runOps sha rsub false ops st).1.undo.reverse
        (runOps sha rsub false ops st).1).fs.read p = fs0.read p := by
  induction ops generalizing st with
  | nil => exact hRB
  | cons op rest ih =>
    rcases hpo : process_operation sha rsub false st op with ⟨st1, e1⟩
    obtain ⟨hne1, hfresh1, hlen1, hRB1⟩ :=
      process_operation_rollback_step sha rsub fs0 st st1 e1 op hpo hne hfresh
        (by simp only [List.length_cons] at hcap; omega) hRB
    cases e1 with
    | none =>
      rw [runOps_cons_none sha rsub false st st1 op rest hpo]
      exact ih st1 hne1 hfresh1 (by simp only [List.length_cons] at hcap; omega) hRB1
    | some err =>
      rw [runOps_cons_some sha rsub false st st1 op rest err hpo]
      exact hRB1

/-- The loop stops at the first raising operation: the run equals the
run of the shortest failing prefix, and every earlier prefix succeeds. -/
theorem runOps_stops (sha : Bytes → Bytes)
    (rsub : List Nat → List Nat → List Nat → List Nat × Nat) (dryRun : Bool)
    (ops : List Op) (st : TxSt)
    (hfail : ((runOps sha rsub dryRun ops st).2).isSome = true) :
    ∃ k, k < ops.length ∧
      runOps sha rsub dryRun ops st = runOps sha rsub dryRun (ops.take (k + 1)) st ∧
      (runOps sha rsub dryRun (ops.take k) st).2 = none := by
  induction ops generalizing st with
  | nil => exact absurd hfail (by simp [runOps])
  | cons op rest ih =>
    rcases hpo : process_operation sha rsub dryRun st op with ⟨st1, e1⟩
    cases e1 with
    | some err =>
      refine ⟨0, by simp, ?_, rfl⟩
      rw [show (op :: rest).take (0 + 1) = op :: rest.take 0 from rfl]
      rw [runOps_cons_some sha rsub dryRun st st1 op rest err hpo,
        runOps_cons_some sha rsub dryRun st st1 op (rest.take 0) err hpo]
    | none =>
      rw [runOps_cons_none sha rsub dryRun st st1 op rest hpo] at hfail
      obtain ⟨k, hk, he, hn⟩ := ih st1 hfail
      refine ⟨k + 1, by simp only [List.length_cons]; omega, ?_, ?_⟩
      · rw [show (op :: rest).take (k + 1 + 1) = op :: rest.take (k + 1) from rfl]
        rw [runOps_cons_none sha rsub dryRun st st1 op rest hpo,
          runOps_cons_none sha rsub dryRun st st1 op (rest.take (k + 1)) hpo]
        exact he
      · rw [show (op :: rest).take (k + 1) = op :: rest.take k from rfl]
        rw [runOps_cons_none sha rsub dryRun st st1 op (rest.take k) hpo]
        exact hn

/-! Claim C1: rollback completeness. -/

/-- Claim C1 counterexample: after a failing batch whose first
operation implicitly created the parent directory d, the rollback
leaves d in the tree although it was absent initially; the effects of
the preceding operations are not fully reverted. -/
theorem c1_counterexample :
    (execute shaAB rsubNone false c1ops (initTx ⟨[], []⟩ [] 0)).status = Status.fail ∧
    (execute shaAB rsubNone false c1ops (initTx ⟨[], []⟩ [] 0)).fs.isDir (strCps "d") = true ∧
    FS.isDir ⟨[], []⟩ (strCps "d") = false := by
  decide

/-- Claim C1 amended: for a batch of at most five operations over a
tree without empty files, starting from an empty backup store, a batch
whose run raises gives final status FAIL, the file CONTENTS are fully
reverted (directories implicitly or explicitly created are not), only
the shortest failing prefix of the batch is ever attempted, and every
operation before the failing one succeeded. -/
theorem c1_rollback_completeness (sha : Bytes → Bytes)
    (rsub : List Nat → List Nat → List Nat → List Nat × Nat)
    (ops : List Op) (fs0 : FS) (t0 : Nat)
    (hlen : ops.length ≤ MAX_BACKUPS)
    (hne : nonEmptyFiles fs0)
    (hfail : ((runOps sha rsub false ops (initTx fs0 [] t0)).2).isSome = true) :
    (execute sha rsub false ops (initTx fs0 [] t0)).status = Status.fail ∧
    (∀ p, (execute sha rsub false ops (initTx fs0 [] t0)).fs.read p = fs0.read p) ∧
    (∃ k, k < ops.length ∧
      runOps sha rsub false ops (initTx fs0 [] t0) =
        runOps sha rsub false (ops.take (k + 1)) (initTx fs0 [] t0) ∧
      (runOps sha rsub false (ops.take k) (initTx fs0 [] t0)).2 = none) := by
  have hopsne : ops.isEmpty = false := by
    cases ops with
    | nil => exact absurd hfail (by simp [runOps])
    | cons a l => rfl
  have hinv := runOps_rollback_inv sha rsub fs0 ops (initTx fs0 [] t0) hne
    (fun b hb => absurd hb (List.not_mem_nil b))
    (by rw [show MAX_BACKUPS = 5 from rfl] at hlen; simpa [initTx] using hlen)
    (fun p => rfl)
  rcases hrun : runOps sha rsub false ops (initTx fs0 [] t0) with ⟨stf, ef⟩
  rw [hrun] at hinv
  cases ef with
  | none =>
    rw [hrun] at hfail
    exact absurd hfail (by simp)
  | some err =>
    have hex : execute sha rsub false ops (initTx fs0 [] t0) =
        rollback { stf with status := Status.fail } := by
      unfold execute
      rw [if_neg (by intro hc; rw [hopsne] at hc; exact absurd hc.1 (by simp))]
      dsimp only
      rw [hrun]
    refine ⟨?_, ?_, hrun ▸ runOps_stops sha rsub false ops (initTx fs0 [] t0) hfail⟩
    · rw [hex]
      exact (replayUndo_status_eq stf.undo.reverse
        { stf with status := Status.fail }).trans rfl
    · intro p
      rw [hex]
      show (replayUndo stf.undo.reverse { stf with status := Status.fail }).fs.read p =
        fs0.read p
      rw [(replayUndo_rel stf.undo.reverse ({ stf with status := Status.fail } : TxSt) stf
        ⟨fun q => rfl, rfl⟩).1 p]
      exact hinv p

/-- Claim C1 witness: a concrete failing two-operation batch ends in
FAIL with the file map restored. -/
theorem c1_witness :
    (execute shaAB rsubNone false c1ops (initTx ⟨[], []⟩ [] 0)).status = Status.fail ∧
    (execute shaAB rsubNone false c1ops (initTx ⟨[], []⟩ [] 0)).fs.read (strCps "d/x.txt") =
      FS.read ⟨[], []⟩ (strCps "d/x.txt") := by
  have h := c1_rollback_completeness shaAB rsubNone c1ops ⟨[], []⟩ 0 (by decide)
    (fun e he => absurd he (List.not_mem_nil e)) (by decide)
  exact ⟨h.1, h.2.1 (strCps "d/x.txt")⟩

end Ark

